import Mathlib

set_option maxHeartbeats 1600000
set_option maxRecDepth 4000

namespace ObsidianGithubIssues

/-!
Shallow embedding of the reconciliation and rendering core of the
obsidian-github-issues plugin (src/util/persistUtils.ts,
src/util/templateUtils.ts, src/file-manager.ts).

Strings are modelled as `List Char`.  The JavaScript regular expressions
used by the source are modelled by explicit scanners that follow the
engine's leftmost-match, greedy/lazy and backtracking semantics for the
concrete patterns appearing in the source.  `\s` is modelled by its ASCII
part (Unicode space characters are not modelled); JS `Date` values are
modelled as abstract millisecond timestamps (`Int`) together with a parse
function supplied as an environment.
-/

abbrev Str := List Char

def lbrace : Char := Char.ofNat 123

def rbrace : Char := Char.ofNat 125

def bslashC : Char := Char.ofNat 92

def squoteC : Char := Char.ofNat 39

def dquoteC : Char := Char.ofNat 34

/-- Models JS `\s` (ASCII whitespace: space, tab, LF, CR, VT, FF). -/
def isJsSpace (c : Char) : Bool :=
  c = ' ' || c = '\t' || c = '\n' || c = '\r' || c = Char.ofNat 11 || c = Char.ofNat 12

/-- A single or double straight quote, as in the regex class `["']`. -/
def isQuote (c : Char) : Bool := c = dquoteC || c = squoteC

/-- Models JS `\w` = `[A-Za-z0-9_]`. -/
def isWordChar (c : Char) : Bool := c.isAlphanum || c = '_'

/-- Consume the literal `lit` from the front of `s`, or fail. -/
def dropLit (lit s : Str) : Option Str :=
  if lit.isPrefixOf s then some (s.drop lit.length) else none

/-- Boolean substring test (JS `String.prototype.includes`). -/
def occursIn (pat : Str) : Str → Bool
  | [] => pat.isEmpty
  | s@(_ :: t) => pat.isPrefixOf s || occursIn pat t

/-! ## Persist-block codec (src/util/persistUtils.ts) -/

/-- Consume one quote character, as in the regex `["']`. -/
def matchQuote (s : Str) : Option Str :=
  match s with
  | c :: t => if isQuote c then some t else none
  | [] => none

/-- Match the end marker pattern `\{%\s*endpersist\s*%\}` at the head of `s`,
returning the rest of the string after the marker. -/
def matchEndAt (s : Str) : Option Str :=
  (dropLit [lbrace, '%'] s).bind fun t1 =>
    (dropLit ("endpersist".toList) (t1.dropWhile isJsSpace)).bind fun t3 =>
      dropLit ['%', rbrace] (t3.dropWhile isJsSpace)

/-- Lazy scan `([\s\S]*?)` up to the earliest occurrence of the end marker:
returns the content before the marker and the rest after the marker. -/
def splitAtEnd : Str → Option (Str × Str)
  | [] => none
  | c :: t =>
    match matchEndAt (c :: t) with
    | some rest => some ([], rest)
    | none =>
      match splitAtEnd t with
      | some (ct, r) => some (c :: ct, r)
      | none => none

/-- Match the persist-block pattern
`\{%\s*persist\s+["']([^"']+)["']\s*%\}([\s\S]*?)\{%\s*endpersist\s*%\}`
at the head of `s`.  On success returns `(name, content, rest)` where `rest`
is the remainder of `s` after the full match. -/
def matchSpacePlus (s : Str) : Option Str :=
  match s with
  | c :: t => if isJsSpace c then some (t.dropWhile isJsSpace) else none
  | [] => none

def matchName (s : Str) : Option (Str × Str) :=
  let nm := s.takeWhile (fun d => !(isQuote d))
  if nm.isEmpty then none else some (nm, s.dropWhile (fun d => !(isQuote d)))

def matchPersistAt (s : Str) : Option (Str × Str × Str) :=
  (dropLit [lbrace, '%'] s).bind fun t1 =>
    (dropLit ("persist".toList) (t1.dropWhile isJsSpace)).bind fun t3 =>
      (matchSpacePlus t3).bind fun t5 =>
        (matchQuote t5).bind fun t6 =>
          (matchName t6).bind fun nt =>
            (matchQuote nt.2).bind fun t7 =>
              (dropLit ['%', rbrace] (t7.dropWhile isJsSpace)).bind fun t9 =>
                (splitAtEnd t9).map fun p => (nt.1, p.1, p.2)

/-- One regex match of the persist pattern: position (`match.index`),
captured name, captured content and the full matched text (`match[0]`). -/
structure PMatch where
  pos : Nat
  name : Str
  content : Str
  full : Str
deriving Repr, DecidableEq

/-- Fuelled scanner modelling `persistPattern.exec` in a loop with the `g`
flag: leftmost, non-overlapping matches, resuming after each full match. -/
def scanPersistF : Nat → Str → Nat → List PMatch
  | 0, _, _ => []
  | Nat.succ f, s, pos =>
    match s with
    | [] => []
    | c :: t =>
      match matchPersistAt (c :: t) with
      | some (nm, ct, rest) =>
        let flen := (c :: t).length - rest.length
        ⟨pos, nm, ct, (c :: t).take flen⟩ :: scanPersistF f rest (pos + flen)
      | none => scanPersistF f t (pos + 1)

/-- All persist-pattern matches of `content`, in order of position. -/
def persistMatches (content : Str) : List PMatch :=
  scanPersistF (content.length + 1) content 0

/-- Mirrors the TS interface `PersistBlockInfo`. -/
structure PersistBlockInfo where
  content : Str
  position : Nat
  fullMatch : Str
deriving Repr, DecidableEq

/-- A JS `Map<string, PersistBlockInfo>`: association list with distinct
keys; `set` updates in place (keeping first-insertion order), `get` looks
up the unique entry. -/
abbrev PersistMap := List (Str × PersistBlockInfo)

def mapSet (m : PersistMap) (k : Str) (v : PersistBlockInfo) : PersistMap :=
  if m.any (fun e => decide (e.1 = k)) then
    m.map (fun e => if e.1 = k then (k, v) else e)
  else m ++ [(k, v)]

def mapGet (m : PersistMap) (k : Str) : Option PersistBlockInfo :=
  (m.find? (fun e => decide (e.1 = k))).map (fun e => e.2)

/-- Embeds `extractPersistBlocks` (persistUtils.ts, lines 28-49). -/
def extractPersistBlocks (content : Str) : PersistMap :=
  (persistMatches content).foldl
    (fun m pm => mapSet m pm.name ⟨pm.content, pm.pos, pm.full⟩) []

/-- The re-emitted opening marker `{% persist "name" %}` produced by the
merge's replacement callback. -/
def persistOpenOf (nm : Str) : Str :=
  "\x7b% persist \"".toList ++ nm ++ "\" %\x7d".toList

/-- The literal `{% endpersist %}`. -/
def persistEndLit : Str := "\x7b% endpersist %\x7d".toList

/-- The literal `{% persist` (used by `line.includes('{% persist')`). -/
def persistLitStr : Str := "\x7b% persist".toList

/-- A reconstructed block `{% persist "nm" %}content{% endpersist %}`. -/
def persistNeedle (nm c : Str) : Str := persistOpenOf nm ++ c ++ persistEndLit

/-- Fuelled scanner modelling the first pass of `mergePersistBlocks`:
`result.replace(persistPattern, cb)`.  Returns the rewritten text and the
list of block names the callback added to `processedBlocks` (in match
order, with duplicates). -/
def mergeScanF : Nat → Str → PersistMap → Str × List Str
  | 0, _, _ => ([], [])
  | Nat.succ _, [], _ => ([], [])
  | Nat.succ f, c :: t, m =>
    match matchPersistAt (c :: t) with
    | some (nm, _ct, rest) =>
      ((match mapGet m nm with
        | some info => persistNeedle nm info.content
        | none => (c :: t).take ((c :: t).length - rest.length)) ++
          (mergeScanF f rest m).1,
        nm :: (mergeScanF f rest m).2)
    | none => (c :: (mergeScanF f t m).1, (mergeScanF f t m).2)

def mergeScan (s : Str) (m : PersistMap) : Str × List Str :=
  mergeScanF (s.length + 1) s m

/-- Models `content.split('\n')`. -/
def splitNL : Str → List Str
  | [] => [[]]
  | c :: t =>
    if c = '\n' then [] :: splitNL t
    else
      match splitNL t with
      | l :: ls => (c :: l) :: ls
      | [] => [[c]]

/-- Models `lines.join('\n')`. -/
def joinNL : List Str → Str
  | [] => []
  | [l] => l
  | l :: ls => l ++ '\n' :: joinNL ls

/-- Models JS `String.prototype.trim` (ASCII whitespace). -/
def trimJs (s : Str) : Str :=
  ((s.dropWhile isJsSpace).reverse.dropWhile isJsSpace).reverse

/-- Models `lines.splice(i, 0, a)` (the index is clamped to the array
length, as JS does). -/
def spliceIn (l : List Str) (i : Nat) (a : Str) : List Str :=
  l.take i ++ a :: l.drop i

/-- The loop computing `oldLineNumber` in
`insertPersistBlocksIntelligently`: first line index whose preceding
cumulative character count reaches `position`; `0` if the loop finishes
without a break. -/
def colGo : List Str → Nat → Nat → Nat → Nat
  | [], _, _, _ => 0
  | l :: ls, pos, cc, i => if pos ≤ cc then i else colGo ls pos (cc + l.length + 1) (i + 1)

def computeOldLineNumber (lines : List Str) (pos : Nat) : Nat :=
  colGo lines pos 0 0

/-- One iteration of the `for (const { name, info } of blocksToInsert)`
loop of `insertPersistBlocksIntelligently` (persistUtils.ts lines 108-212). -/
def insertOneBlock (oldLines : List Str) (newLines : List Str) (nm : Str)
    (info : PersistBlockInfo) : List Str :=
  let blockText : Str := '\n' :: persistNeedle nm info.content
  let oldLineNumber := computeOldLineNumber oldLines info.position
  let beforeIdxs := List.range' (oldLineNumber - 2) (oldLineNumber - (oldLineNumber - 2))
  let contextBefore :=
    ((beforeIdxs.map (fun i => oldLines.getD i [])).filter
      (fun l => !l.isEmpty && !(decide (trimJs l = "---".toList)) &&
        !(occursIn persistLitStr l))).map trimJs
  let blockEndLine :=
    match ((List.range oldLines.length).drop oldLineNumber).find?
        (fun i => occursIn persistEndLit (oldLines.getD i [])) with
    | some i => i
    | none => oldLineNumber
  let afterIdxs := (List.range' (blockEndLine + 1) 2).filter (· < oldLines.length)
  let contextAfter :=
    ((afterIdxs.map (fun i => oldLines.getD i [])).filter
      (fun l => !l.isEmpty && !(trimJs l).isEmpty && !(occursIn persistLitStr l))).map trimJs
  let idxBefore : Option Nat :=
    if contextBefore.isEmpty then none
    else
      match contextBefore.getLast? with
      | some lastCtx => (newLines.findIdx? (fun l => trimJs l = lastCtx)).map (· + 1)
      | none => none
  let idxAfter : Option Nat :=
    match idxBefore with
    | some _ => none
    | none =>
      if contextAfter.isEmpty then none
      else
        match contextAfter.head? with
        | some firstCtx => newLines.findIdx? (fun l => trimJs l = firstCtx)
        | none => none
  let insertIndex : Nat :=
    match idxBefore, idxAfter with
    | some i, _ => i
    | none, some i => i
    | none, none =>
      let rel := newLines.length * oldLineNumber / oldLines.length
      let fmEnd :=
        match newLines.head? with
        | some l0 =>
          if trimJs l0 = "---".toList then
            match ((List.range newLines.length).drop 1).find?
                (fun i => trimJs (newLines.getD i []) = "---".toList) with
            | some i => i + 1
            | none => 0
          else 0
        | none => 0
      max rel fmEnd
  spliceIn newLines insertIndex blockText

/-- Embeds `insertPersistBlocksIntelligently` (persistUtils.ts 108-212).
The fractional relative position `oldLineNumber / oldLines.length` is
modelled by exact natural division. -/
def insertPersistBlocksIntelligently (oldContent newContent : Str)
    (blocks : List (Str × PersistBlockInfo)) : Str :=
  let oldLines := splitNL oldContent
  joinNL (blocks.foldl (fun nl b => insertOneBlock oldLines nl b.1 b.2)
    (splitNL newContent))

/-- Embeds `mergePersistBlocks` (persistUtils.ts, lines 60-98). -/
def mergePersistBlocks (newContent oldContent : Str) (persistBlocks : PersistMap) : Str :=
  let r := mergeScan newContent persistBlocks
  let toInsert := persistBlocks.filter (fun e => !(r.2.contains e.1))
  if toInsert.isEmpty then r.1
  else insertPersistBlocksIntelligently oldContent r.1 toInsert

/-! ## Properties of the persist map (JS `Map` semantics) -/

/-- The entries of `m` whose key is `k`. -/
def entriesFor (m : PersistMap) (k : Str) : PersistMap :=
  m.filter (fun e => decide (e.1 = k))

/-- The info recorded for one regex match. -/
def infoOf (pm : PMatch) : PersistBlockInfo :=
  ⟨pm.content, pm.pos, pm.full⟩

/-- The fold computing `extractPersistBlocks`, starting from any map. -/
def extractFold (ms : List PMatch) (m0 : PersistMap) : PersistMap :=
  ms.foldl (fun m pm => mapSet m pm.name (infoOf pm)) m0

/-- Old document of the C1 counterexample: a multi-line block `a` followed
by a context line `X` and a block `b`. -/
def c1OldDoc : Str :=
  ("\x7b% persist \"a\" %\x7dL1\nX\nL2\x7b% endpersist %\x7d\nX\n\x7b% persist \"b\" %\x7dbb\x7b% endpersist %\x7d").toList

/-- New document of the C1 counterexample: it still carries a marker for
block `a` but no marker for block `b`. -/
def c1NewDoc : Str := ("\x7b% persist \"a\" %\x7d\x7b% endpersist %\x7d\nX").toList

/-- Old and new documents of the C1 witness (the spec's own example). -/
def c1wOld : Str :=
  ("Intro\n\x7b% persist \"notes\" %\x7dhello\x7b% endpersist %\x7d\nOutro").toList

def c1wNew : Str := ("Completely different text").toList

/-- Document with two persist blocks of the same name, for the C10 witness. -/
def c10Doc : Str :=
  ("pre \x7b% persist \"n\" %\x7done\x7b% endpersist %\x7d mid \x7b% persist \"n\" %\x7dtwo\x7b% endpersist %\x7d post").toList

def c10Last : PMatch :=
  ⟨45, "n".toList, "two".toList, persistNeedle "n".toList "two".toList⟩

/-! ## Staleness check (persistUtils.ts lines 220-239) -/

/-- Characters matched by the capture class `[^"'\n]`. -/
def isCaptureChar (c : Char) : Bool := !(isQuote c) && !(c = '\n')

/-- Try `([^"'\n]+)["']?$` at `u`: the greedy capture must reach the end of
the current line, optionally followed by exactly one quote. -/
def tryCore (u : Str) : Option Str :=
  let L := u.takeWhile (fun c => !(c = '\n'))
  let M := L.takeWhile (fun c => !(isQuote c))
  if M.isEmpty then none
  else
    match L.drop M.length with
    | [] => some M
    | [q] => if isQuote q then some M else none
    | _ => none

/-- Engine order for the optional opening quote `["']?`: greedy, so a
leading quote is consumed first and the quoteless reading is the backtrack. -/
def tryAfterWs (u : Str) : Option Str :=
  match u with
  | c :: t => if isQuote c then tryCore t <|> tryCore u else tryCore u
  | [] => none

/-- Backtracking over the greedy `\s*` after `updated:` (JS `\s` also
matches line breaks, so the run is retried from longest to shortest). -/
def wsBacktrack (s : Str) : Option Str :=
  ((List.range ((s.takeWhile isJsSpace).length + 1)).reverse).findSome?
    (fun j => tryAfterWs (s.drop j))

/-- Match `updated:\s*["']?([^"'\n]+)["']?$` at a line start. -/
def matchUpdatedLine (s : Str) : Option Str :=
  (dropLit ("updated:".toList) s).bind wsBacktrack

/-- Scan for the leftmost match of the multiline-anchored pattern: try each
line start in order. -/
def euScan : Bool → Str → Option Str
  | _, [] => none
  | atStart, c :: t =>
    (if atStart then matchUpdatedLine (c :: t) else none) <|> euScan (c = '\n') t

/-- The captured value of the first match of
`/^updated:\s*["']?([^"'\n]+)["']?$/m` in `s`, if any. -/
def extractUpdatedField (s : Str) : Option Str := euScan true s

/-- Environment for the JS `Date` runtime: `parse` models
`new Date(str).getTime()` with `none` for an invalid date (`NaN`);
`format` models date-fns `format`, and `localeDate`/`localeString` model
`toLocaleDateString`/`toLocaleString`. -/
structure JsDateEnv where
  parse : Str → Option Int
  format : Str → Int → Str
  localeDate : Int → Str
  localeString : Int → Str

/-- Embeds `shouldUpdateContent` (persistUtils.ts lines 220-239): compare
the remote `updated_at` with the `updated:` frontmatter value.  Returns
`none` when the JS code would throw (`new Date(invalid).toISOString()`);
for a valid date, `new Date(new Date(g).toISOString())` preserves the time
value, so the comparison is on the parsed values.  A stored value parsing
to `NaN` makes the `>` comparison false. -/
def shouldUpdateContent (env : JsDateEnv) (existingContent githubUpdatedAt : Str) :
    Option Bool :=
  match extractUpdatedField existingContent with
  | none => some true
  | some existingUpdated =>
    match env.parse githubUpdatedAt with
    | none => none
    | some g =>
      match env.parse existingUpdated with
      | none => some false
      | some e => some (decide (e < g))

/-! ## Create/update decision (file-manager.ts lines 415-533) -/

/-- The repository update mode `"none" | "update" | "append"`
(`noneMode` stands for the string `"none"`). -/
inductive UpdateMode
  | noneMode
  | update
  | append
deriving DecidableEq, Repr

/-- The vault operation `createOrUpdateIssueFile` ends up performing on the
issue file. -/
inductive FileAction where
  | create (content : Str)
  | modify (content : Str)
  | skip
deriving DecidableEq, Repr

/-- Decision logic of `createOrUpdateIssueFile` (file-manager.ts lines
462-532).  `existing` is the current file content (`none` when the file
does not exist); `newContent` is the rendered issue content and
`appendFragment` the `### New status:`/title/body/comments fragment built
in the append branch (both rendered independently of the branching and
passed in here).  Returns `none` when `shouldUpdateContent` would throw. -/
def createOrUpdateIssueAction (env : JsDateEnv) (existing : Option Str)
    (mode : UpdateMode) (newContent appendFragment updatedAt : Str) :
    Option FileAction :=
  match existing with
  | none => some (.create newContent)
  | some ex =>
    match mode with
    | .update =>
      match shouldUpdateContent env ex updatedAt with
      | none => none
      | some false => some .skip
      | some true =>
        some (.modify
          (if (extractPersistBlocks ex).isEmpty then newContent
            else mergePersistBlocks newContent ex (extractPersistBlocks ex)))
    | .append => some (.modify (ex ++ "\n\n".toList ++ appendFragment))
    | .noneMode => some .skip

/-- The file content after applying an action to a file that held
`existing`. -/
def appliedContent (existing : Str) : FileAction → Str
  | .create c => c
  | .modify c => c
  | .skip => existing

/-- Concrete date environment for witnesses: parses the two literal
timestamps used there. -/
def witnessEnv : JsDateEnv where
  parse := fun s =>
    if s = "2024-05-02T10:00:00Z".toList then some 200
    else if s = "2024-05-01T10:00:00Z".toList then some 100
    else none
  format := fun _ _ => []
  localeDate := fun _ => []
  localeString := fun _ => []

/-- Existing document content used by the C2 witness. -/
def c2Doc : Str :=
  ("---\ntitle: \"T\"\nupdated: \"2024-05-02T10:00:00Z\"\n---\nbody").toList

/-! ## Label filter (file-manager.ts lines 131-150) -/

/-- A label as it appears in the API payload: a bare string or an object
with a `name` field (`typeof label === 'string' ? label : label.name`). -/
inductive LabelVal
  | str (s : Str)
  | obj (name : Str)
deriving DecidableEq, Repr

def labelName : LabelVal → Str
  | .str s => s
  | .obj n => n

/-- An item as seen by the label filter; `labels` is `none` when the field
is missing or not an array. -/
structure FilterItem where
  labels : Option (List LabelVal)
deriving DecidableEq, Repr

/-- The filter mode `"include" | "exclude"` (constructors `inclMode` /
`exclMode` stand for those two strings). -/
inductive LabelFilterMode
  | inclMode
  | exclMode
deriving DecidableEq, Repr

/-- Embeds `applyLabelFilter` (file-manager.ts lines 131-150). -/
def applyLabelFilter (items : List FilterItem) (filterMode : LabelFilterMode)
    (labelFilters : List Str) : List FilterItem :=
  items.filter (fun item =>
    match item.labels with
    | none => decide (filterMode = .exclMode)
    | some ls =>
      let itemLabels := ls.map labelName
      let hasMatchingLabel := labelFilters.any (fun f => itemLabels.contains f)
      match filterMode with
      | .inclMode => hasMatchingLabel
      | .exclMode => !hasMatchingLabel)

/-- The label names of an item (empty when the labels field is absent). -/
def itemLabelNames (i : FilterItem) : List Str := (i.labels.getD []).map labelName

/-- Items of the C7 witness: `A` has label `bug`, `B` has no labels. -/
def itemA : FilterItem := ⟨some [LabelVal.obj ("bug".toList)]⟩

def itemB : FilterItem := ⟨some []⟩

/-! ## Template engine (src/util/templateUtils.ts) -/

/-- Mirrors the TS interface `TemplateData`.  Dates are abstract time
values; optional TS fields are `Option`s. -/
structure TemplateData where
  title : Str
  title_yaml : Str
  number : Nat
  status : Str
  state : Str
  author : Str
  assignee : Option Str
  assignees : Option (List Str)
  labels : Option (List Str)
  created : Int
  updated : Option Int
  closed : Option Int
  repository : Str
  owner : Str
  repoName : Str
  type : Str
  body : Str
  url : Str
  milestone : Option Str
  mergedAt : Option Int
  mergeable : Option Bool
  merged : Option Bool
  baseBranch : Option Str
  headBranch : Option Str
  commentsCount : Option Nat
  isLocked : Bool
  lockReason : Option Str
  comments : Option Str
deriving DecidableEq, Repr

/-- Embeds `getVariableValue` (templateUtils.ts lines 266-283). -/
def getVariableValue (variableName : Str) (d : TemplateData) : Option Str :=
  if variableName = "closed".toList then d.closed.map (fun _ => "true".toList)
  else if variableName = "updated".toList then d.updated.map (fun _ => "true".toList)
  else if variableName = "mergedAt".toList then d.mergedAt.map (fun _ => "true".toList)
  else if variableName = "milestone".toList then d.milestone
  else if variableName = "assignee".toList then d.assignee
  else if variableName = "assignees".toList then
    (match d.assignees with
      | some l => if l.length > 0 then some ("true".toList) else none
      | none => none)
  else if variableName = "labels".toList then
    (match d.labels with
      | some l => if l.length > 0 then some ("true".toList) else none
      | none => none)
  else if variableName = "body".toList then some d.body
  else if variableName = "lockReason".toList then d.lockReason
  else if variableName = "baseBranch".toList then d.baseBranch
  else if variableName = "headBranch".toList then d.headBranch
  else if variableName = "merged".toList then
    (if d.merged = some true then some ("true".toList) else none)
  else if variableName = "mergeable".toList then
    (if d.mergeable.isSome then some ("true".toList) else none)
  else none

/-- The truthiness test of `processConditionalBlocks`: content is kept iff
`value && value !== "" && value !== "0" && value !== "false" &&
value !== "unknown" && value !== "unassigned"`. -/
def condTruthy (v : Option Str) : Bool :=
  match v with
  | none => false
  | some s =>
    !s.isEmpty && !(s = "0".toList) && !(s = "false".toList) &&
      !(s = "unknown".toList) && !(s = "unassigned".toList)

/-- Characters matched by `.` (no dotAll flag). -/
def isDotChar (c : Char) : Bool := !(c = '\n') && !(c = '\r')

/-- Match `\{(\w+):(.*?)\}` at the head of `s`: variable name, lazy
dot-only content up to the first closing brace, and the rest. -/
def matchCondAt (s : Str) : Option (Str × Str × Str) :=
  match s with
  | c :: t =>
    if c = lbrace then
      if (t.takeWhile isWordChar).isEmpty then none
      else
        match t.drop (t.takeWhile isWordChar).length with
        | d :: u =>
          if d = ':' then
            match u.drop ((u.takeWhile (fun e => isDotChar e && !(e = rbrace))).length) with
            | e :: v =>
              if e = rbrace then
                some (t.takeWhile isWordChar,
                  u.takeWhile (fun e => isDotChar e && !(e = rbrace)), v)
              else none
            | [] => none
          else none
        | [] => none
    else none
  | [] => none

/-- Fuelled global replace for `processConditionalBlocks`
(templateUtils.ts lines 247-261). -/
def processCondF : Nat → TemplateData → Str → Str
  | 0, _, _ => []
  | Nat.succ _, _, [] => []
  | Nat.succ f, d, c :: t =>
    match matchCondAt (c :: t) with
    | some (nm, ct, rest) =>
      (if condTruthy (getVariableValue nm d) then ct else []) ++ processCondF f d rest
    | none => c :: processCondF f d t

def processConditionalBlocks (template : Str) (d : TemplateData) : Str :=
  processCondF (template.length + 1) d template

/-- Expansion of `$`-sequences when a string is used as the replacement in
`String.prototype.replace`: `$$`, `$&`, dollar-backquote and
dollar-apostrophe are special; the pattern has no capture groups so `$n`
stays literal. -/
def expandDollar (matchedText before after : Str) : Str → Str
  | [] => []
  | c :: t =>
    if c = '$' then
      match t with
      | [] => ['$']
      | d :: u =>
        if d = '$' then '$' :: expandDollar matchedText before after u
        else if d = '&' then matchedText ++ expandDollar matchedText before after u
        else if d = Char.ofNat 96 then before ++ expandDollar matchedText before after u
        else if d = squoteC then after ++ expandDollar matchedText before after u
        else '$' :: expandDollar matchedText before after (d :: u)
    else c :: expandDollar matchedText before after t

/-- Fuelled global literal replace,
`subject.replace(new RegExp(escapeRegExp(pat), "g"), v)`; `before` is the
already-scanned prefix of the original subject (for dollar-backquote). -/
def jsReplF : Nat → Str → Str → Str → Str → Str
  | 0, _, _, _, _ => []
  | Nat.succ _, _, _, _, [] => []
  | Nat.succ f, pat, v, before, c :: t =>
    if pat.isPrefixOf (c :: t) && !pat.isEmpty then
      expandDollar pat before ((c :: t).drop pat.length) v ++
        jsReplF f pat v (before ++ pat) ((c :: t).drop pat.length)
    else c :: jsReplF f pat v (before ++ [c]) t

def jsReplaceAllLit (pat v s : Str) : Str := jsReplF (s.length + 1) pat v [] s

/-- JS `s || fallback` for strings (empty is falsy). -/
def orElseStr (s fallback : Str) : Str := if s.isEmpty then fallback else s

/-- JS `v || fallback` for an optional string. -/
def optOrElse (v : Option Str) (fallback : Str) : Str :=
  match v with
  | some s => orElseStr s fallback
  | none => fallback

/-- `dateFormat ? format(d, dateFormat) : d.toLocaleDateString()`. -/
def renderDate (env : JsDateEnv) (dateFormat : Str) (d : Int) : Str :=
  if dateFormat.isEmpty then env.localeDate d else env.format dateFormat d

/-- An optional date rendered as in `processTemplate` (empty when absent). -/
def optDate (env : JsDateEnv) (dateFormat : Str) (d : Option Int) : Str :=
  match d with
  | some t => renderDate env dateFormat t
  | none => []

def natToStr (n : Nat) : Str := (toString n).toList

def yamlArr (l : List Str) : Str :=
  '[' :: (List.intercalate (", ".toList) (l.map (fun s => '"' :: (s ++ ['"'])))) ++ [']']

/-- The ordered `replacements` record of `processTemplate`
(templateUtils.ts lines 130-194): base entries in object-literal order,
then the PR-specific entries, then assignees, labels and comments entries,
matching JS property insertion order. -/
def replacementList (env : JsDateEnv) (dateFormat : Str) (d : TemplateData) :
    List (Str × Str) :=
  [("\x7btitle\x7d".toList, orElseStr d.title ("Untitled".toList)),
    ("\x7btitle_yaml\x7d".toList, orElseStr d.title_yaml ("Untitled".toList)),
    ("\x7bnumber\x7d".toList, natToStr d.number),
    ("\x7bstatus\x7d".toList, orElseStr d.status ("unknown".toList)),
    ("\x7bstate\x7d".toList, orElseStr d.state (orElseStr d.status ("unknown".toList))),
    ("\x7bauthor\x7d".toList, orElseStr d.author ("unknown".toList)),
    ("\x7bassignee\x7d".toList, optOrElse d.assignee ("unassigned".toList)),
    ("\x7brepository\x7d".toList, d.repository),
    ("\x7bowner\x7d".toList, d.owner),
    ("\x7brepoName\x7d".toList, d.repoName),
    ("\x7btype\x7d".toList, d.type),
    ("\x7bbody\x7d".toList, orElseStr d.body []),
    ("\x7burl\x7d".toList, orElseStr d.url []),
    ("\x7bmilestone\x7d".toList, optOrElse d.milestone []),
    ("\x7bcommentsCount\x7d".toList,
      match d.commentsCount with
      | some n => natToStr n
      | none => "0".toList),
    ("\x7bisLocked\x7d".toList, if d.isLocked then "true".toList else "false".toList),
    ("\x7block\x52eason\x7d".toList, optOrElse d.lockReason []),
    ("\x7bcreated\x7d".toList, renderDate env dateFormat d.created),
    ("\x7bupdated\x7d".toList, optDate env dateFormat d.updated),
    ("\x7bclosed\x7d".toList, optDate env dateFormat d.closed)]
  ++ (if d.type = "pr".toList then
    [("\x7bmergedAt\x7d".toList, optDate env dateFormat d.mergedAt),
      ("\x7bmergeable\x7d".toList,
        match d.mergeable with
        | some b => if b then "true".toList else "false".toList
        | none => "unknown".toList),
      ("\x7bmerged\x7d".toList, if d.merged = some true then "true".toList else "false".toList),
      ("\x7bbaseBranch\x7d".toList, optOrElse d.baseBranch []),
      ("\x7bheadBranch\x7d".toList, optOrElse d.headBranch [])]
    else [])
  ++ (match d.assignees with
    | some l =>
      if l.length > 0 then
        [("\x7bassignees\x7d".toList, List.intercalate (", ".toList) l),
          ("\x7bassignees_list\x7d".toList,
            List.intercalate ("\n".toList) (l.map (fun a => "- ".toList ++ a))),
          ("\x7bassignees_yaml\x7d".toList, yamlArr l)]
      else
        [("\x7bassignees\x7d".toList, "unassigned".toList),
          ("\x7bassignees_list\x7d".toList, []),
          ("\x7bassignees_yaml\x7d".toList, "[]".toList)]
    | none =>
      [("\x7bassignees\x7d".toList, "unassigned".toList),
        ("\x7bassignees_list\x7d".toList, []),
        ("\x7bassignees_yaml\x7d".toList, "[]".toList)])
  ++ (match d.labels with
    | some l =>
      if l.length > 0 then
        [("\x7blabels\x7d".toList, List.intercalate (", ".toList) l),
          ("\x7blabels_list\x7d".toList,
            List.intercalate ("\n".toList) (l.map (fun a => "- ".toList ++ a))),
          ("\x7blabels_hash\x7d".toList,
            List.intercalate (" ".toList)
              (l.map (fun a => '#' :: a.map (fun c => if isJsSpace c then '_' else c)))),
          ("\x7blabels_yaml\x7d".toList, yamlArr l)]
      else
        [("\x7blabels\x7d".toList, []),
          ("\x7blabels_list\x7d".toList, []),
          ("\x7blabels_hash\x7d".toList, []),
          ("\x7blabels_yaml\x7d".toList, "[]".toList)]
    | none =>
      [("\x7blabels\x7d".toList, []),
        ("\x7blabels_list\x7d".toList, []),
        ("\x7blabels_hash\x7d".toList, []),
        ("\x7blabels_yaml\x7d".toList, "[]".toList)])
  ++ [("\x7bcomments\x7d".toList, optOrElse d.comments [])]

/-- Embeds `processTemplate` (templateUtils.ts lines 119-202):
conditional blocks first, then every replacement applied in order by
global literal replace. -/
def processTemplate (env : JsDateEnv) (template : Str) (d : TemplateData)
    (dateFormat : Str) : Str :=
  (replacementList env dateFormat d).foldl (fun acc e => jsReplaceAllLit e.1 e.2 acc)
    (processConditionalBlocks template d)

/-- The filename-illegal characters `[<>:"|?*\\\/]`. -/
def isBadFileChar (c : Char) : Bool :=
  c = '<' || c = '>' || c = ':' || c = dquoteC || c = '|' || c = '?' || c = '*' ||
    c = bslashC || c = '/'

/-- Collapse every maximal whitespace run to one space (`/\s+/g` → `" "`). -/
def collapseWsGo : Bool → Str → Str
  | _, [] => []
  | prevWs, c :: t =>
    if isJsSpace c then
      (if prevWs then collapseWsGo true t else ' ' :: collapseWsGo true t)
    else c :: collapseWsGo false t

/-- Strip the leading and the trailing dot run (`/^\.+|\.+$/g` → `""`). -/
def dropDots (s : Str) : Str :=
  ((s.dropWhile (fun c => c = '.')).reverse.dropWhile (fun c => c = '.')).reverse

/-- Embeds `sanitizeFilename` (templateUtils.ts lines 49-63). -/
def sanitizeFilename (s : Str) : Str :=
  let s1 := s.map (fun c => if isBadFileChar c then '-' else c)
  let s2 := s1.map (fun c => if c = '\n' then ' ' else c)
  let s3 := s2.filter (fun c => !(c = '\r'))
  let s4 := s3.map (fun c => if c = '\t' then ' ' else c)
  let s5 := collapseWsGo false s4
  let s6 := trimJs s5
  (dropDots s6).take 255

/-- Embeds `processFilenameTemplate` (templateUtils.ts lines 209-216). -/
def processFilenameTemplate (env : JsDateEnv) (template : Str)
    (d : TemplateData) (dateFormat : Str) : Str :=
  sanitizeFilename (processTemplate env template d dateFormat)

/-- The template of the C4 example, `{closed:Closed on {closed}}`. -/
def c4Template : Str := "\x7bclosed:Closed on \x7bclosed\x7d\x7d".toList

/-- A concrete item with no close date (for the C4 counterexample and
witness). -/
def c4DataNone : TemplateData :=
  ⟨"T".toList, "T".toList, 7, "open".toList, "open".toList, "alice".toList,
    none, some [], some [], 5, some 6, none, "acme/widgets".toList,
    "acme".toList, "widgets".toList, "issue".toList, "b".toList, "u".toList,
    some ("v1".toList), none, none, none, none, none, some 0, false, none, none⟩

/-- The same item closed at time 77. -/
def c4DataClosed : TemplateData := { c4DataNone with closed := some 77 }

/-! ## Filename-number extraction (templateUtils.ts lines 236-238 and
451-501): the pattern-construction pipeline and a small backtracking
regex engine for the constructed patterns. -/

/-- The characters of the class `[.*+?^${}()|[\]\\]`. -/
def isRegexSpecial (c : Char) : Bool :=
  c = '.' || c = '*' || c = '+' || c = '?' || c = '^' || c = '$' || c = lbrace ||
    c = rbrace || c = '(' || c = ')' || c = '|' || c = '[' || c = ']' || c = bslashC

/-- Embeds `escapeRegExp` (templateUtils.ts lines 236-238). -/
def escapeRegExp (s : Str) : Str :=
  s.flatMap (fun c => if isRegexSpecial c then [bslashC, c] else [c])

/-- Match `\\?\{` inner `\}` without the optional leading backslash:
an opening brace, the inner part, then a literal closing brace.  Returns
the number of characters consumed. -/
def matchBraceCore (inner : Str → Option Nat) (s : Str) : Option Nat :=
  match s with
  | c :: t =>
    if c = lbrace then
      match inner t with
      | some n =>
        match t.drop n with
        | d :: _ => if d = rbrace then some (n + 2) else none
        | [] => none
      | none => none
    else none
  | [] => none

/-- Match a whole rewrite-rule pattern `\\?\{` inner `\}` at the head of
`s` (the `\\?` is greedy, so a leading backslash is consumed first). -/
def matchBraceVar (inner : Str → Option Nat) (s : Str) : Option Nat :=
  match s with
  | c :: t =>
    if c = bslashC then
      ((matchBraceCore inner t).map (· + 1)) <|> matchBraceCore inner s
    else matchBraceCore inner s
  | [] => none

/-- Inner matcher for a plain variable name. -/
def innerLit (name : Str) (u : Str) : Option Nat :=
  if name.isPrefixOf u then some name.length else none

/-- Inner matcher for `name(?::[^}]+)?` (date/array rules).  When the
optional group cannot take at least one character the engine falls back to
the empty group, leaving the outer matcher to fail on the `:`. -/
def innerOptFmt (name : Str) (u : Str) : Option Nat :=
  if name.isPrefixOf u then
    match u.drop name.length with
    | c :: w =>
      if c = ':' then
        (if 1 ≤ (w.takeWhile (fun e => !(e = rbrace))).length then
          some (name.length + 1 + (w.takeWhile (fun e => !(e = rbrace))).length)
        else some name.length)
      else some name.length
    | [] => some name.length
  else none

/-- Inner matcher for the conditional-block rule `\w+:.*?` (lazy dots up to
the closing brace). -/
def innerCond (u : Str) : Option Nat :=
  let nm := u.takeWhile isWordChar
  if nm.isEmpty then none
  else
    match u.drop nm.length with
    | c :: w =>
      if c = ':' then
        (let k := (w.takeWhile (fun e => isDotChar e && !(e = rbrace))).length
        match w.drop k with
        | e :: _ => if e = rbrace then some (nm.length + 1 + k) else none
        | [] => none)
      else none
    | [] => none

/-- Inner matcher for the final generic rule `[^}]+`. -/
def innerAny (u : Str) : Option Nat :=
  if 1 ≤ (u.takeWhile (fun e => !(e = rbrace))).length then
    some ((u.takeWhile (fun e => !(e = rbrace))).length)
  else none

/-- Fuelled global regex replace for the pattern-rewriting rules:
`pattern.replace(rule, rep)` with leftmost, non-overlapping matches. -/
def ruleGsubF : Nat → (Str → Option Nat) → Str → Str → Str
  | 0, _, _, _ => []
  | Nat.succ _, _, _, [] => []
  | Nat.succ f, m, rep, c :: t =>
    match m (c :: t) with
    | some n => rep ++ ruleGsubF f m rep ((c :: t).drop n)
    | none => c :: ruleGsubF f m rep t

def ruleGsub (m : Str → Option Nat) (rep s : Str) : Str :=
  ruleGsubF (s.length + 1) m rep s

/-- The rewrite pipeline of `extractNumberFromFilename` (templateUtils.ts
lines 457-486), applied in source order. -/
def buildNumberPattern (template : Str) : Str :=
  let p0 := escapeRegExp template
  let p1 := ruleGsub (matchBraceVar (innerLit ("number".toList))) ("(\\d+)".toList) p0
  let p2 := ruleGsub (matchBraceVar (innerLit ("title".toList))) (".*?".toList) p1
  let p3 := ruleGsub (matchBraceVar (innerLit ("title_yaml".toList))) (".*?".toList) p2
  let p4 := ruleGsub (matchBraceVar (innerLit ("status".toList))) ("\\w+".toList) p3
  let p5 := ruleGsub (matchBraceVar (innerLit ("author".toList))) ("[^\\s]+".toList) p4
  let p6 := ruleGsub (matchBraceVar (innerLit ("assignee".toList))) ("[^\\s]*".toList) p5
  let p7 := ruleGsub (matchBraceVar (innerLit ("repository".toList))) ("[^\\s]+".toList) p6
  let p8 := ruleGsub (matchBraceVar (innerLit ("owner".toList))) ("[^\\s]+".toList) p7
  let p9 := ruleGsub (matchBraceVar (innerLit ("repoName".toList))) ("[^\\s]+".toList) p8
  let p10 := ruleGsub (matchBraceVar (innerLit ("type".toList))) ("\\w+".toList) p9
  let p11 := ruleGsub (matchBraceVar (innerLit ("state".toList))) ("\\w+".toList) p10
  let p12 := ruleGsub (matchBraceVar (innerLit ("milestone".toList))) ("[^\\s]*".toList) p11
  let p13 := ruleGsub (matchBraceVar (innerOptFmt ("created".toList))) ("[\\d\\-T:Z\\s]+".toList) p12
  let p14 := ruleGsub (matchBraceVar (innerOptFmt ("updated".toList))) ("[\\d\\-T:Z\\s]+".toList) p13
  let p15 := ruleGsub (matchBraceVar (innerOptFmt ("closed".toList))) ("[\\d\\-T:Z\\s]*".toList) p14
  let p16 := ruleGsub (matchBraceVar (innerOptFmt ("labels".toList))) (".*?".toList) p15
  let p17 := ruleGsub (matchBraceVar (innerOptFmt ("assignees".toList))) (".*?".toList) p16
  let p18 := ruleGsub (matchBraceVar innerCond) (".*?".toList) p17
  ruleGsub (matchBraceVar innerAny) (".*?".toList) p18

/-- One item of a regex character class. -/
inductive RCls where
  | lit (c : Char)
  | dcls
  | wcls
  | scls
deriving DecidableEq, Repr

/-- A regex quantifier (with laziness flag). -/
inductive RQuant where
  | one
  | star (lazy : Bool)
  | plus (lazy : Bool)
  | opt (lazy : Bool)
deriving DecidableEq, Repr

/-- A regex atom: literal, dot, character class or numbered capture
group. -/
inductive RNode where
  | lit (c : Char)
  | dot
  | cls (neg : Bool) (items : List RCls)
  | grp (idx : Nat) (body : List (RNode × RQuant))
deriving Repr

/-- Parse a character class body up to the closing `]`. -/
def parseCls : Str → Option (List RCls × Str)
  | [] => none
  | c :: t =>
    if c = ']' then some ([], t)
    else if c = bslashC then
      match t with
      | d :: u =>
        (match parseCls u with
        | some (items, rest) =>
          some ((if d = 'd' then RCls.dcls else if d = 'w' then RCls.wcls
            else if d = 's' then RCls.scls else RCls.lit d) :: items, rest)
        | none => none)
      | [] => none
    else
      match parseCls t with
      | some (items, rest) => some (RCls.lit c :: items, rest)
      | none => none

/-- Parse an optional quantifier (with its `?` laziness suffix). -/
def parseQuant : Str → RQuant × Str
  | '*' :: '?' :: t => (.star true, t)
  | '*' :: t => (.star false, t)
  | '+' :: '?' :: t => (.plus true, t)
  | '+' :: t => (.plus false, t)
  | '?' :: '?' :: t => (.opt true, t)
  | '?' :: t => (.opt false, t)
  | t => (.one, t)

/-- Fuelled parser for a regex sequence; `g` is the running capture-group
counter.  Stops at `)` or the end; fails on malformed input (as the
`new RegExp` constructor would throw, which the source catches). -/
def parseSeq : Nat → Str → Nat → Option (List (RNode × RQuant) × Str × Nat)
  | 0, _, _ => none
  | Nat.succ f, s, g =>
    match s with
    | [] => some ([], [], g)
    | c :: t =>
      if c = ')' then some ([], c :: t, g)
      else
        let atom? : Option (RNode × Str × Nat) :=
          if c = bslashC then
            match t with
            | d :: u =>
              if d = 'd' then some (.cls false [.dcls], u, g)
              else if d = 'w' then some (.cls false [.wcls], u, g)
              else if d = 's' then some (.cls false [.scls], u, g)
              else some (.lit d, u, g)
            | [] => none
          else if c = '[' then
            match t with
            | '^' :: u =>
              (match parseCls u with
              | some (items, rest) => some (.cls true items, rest, g)
              | none => none)
            | _ =>
              match parseCls t with
              | some (items, rest) => some (.cls false items, rest, g)
              | none => none
          else if c = '.' then some (.dot, t, g)
          else if c = '(' then
            match parseSeq f t (g + 1) with
            | some (body, rest, g2) =>
              (match rest with
              | e :: rest2 => if e = ')' then some (.grp (g + 1) body, rest2, g2) else none
              | [] => none)
            | none => none
          else some (.lit c, t, g)
        match atom? with
        | none => none
        | some (node, rest, g2) =>
          match parseSeq f (parseQuant rest).2 g2 with
          | some (nodes, rest3, g3) => some ((node, (parseQuant rest).1) :: nodes, rest3, g3)
          | none => none

/-- Parse a whole pattern (group numbering starts at 1). -/
def parseRegex (p : Str) : Option (List (RNode × RQuant)) :=
  match parseSeq (p.length + 1) p 0 with
  | some (nodes, [], _) => some nodes
  | _ => none

/-- Capture list: group index to captured text. -/
abbrev Caps := List (Nat × Str)

def capSet (caps : Caps) (i : Nat) (v : Str) : Caps :=
  (i, v) :: caps.filter (fun e => !(e.1 = i))

/-- `.error` = out of fuel (the model gives no verdict), `.ok none` =
definitely no match, `.ok (some caps)` = match. -/
def rTry (a : Except Unit (Option Caps)) (b : Unit → Except Unit (Option Caps)) :
    Except Unit (Option Caps) :=
  match a with
  | .ok (some c) => .ok (some c)
  | .ok none => b ()
  | .error e => .error e

/-- Single-character test of a non-group atom. -/
def rNodeChar : RNode → Char → Bool
  | .lit x, c => x = c
  | .dot, c => isDotChar c
  | .cls neg items, c =>
    (if neg then
      !(items.any (fun it =>
        match it with
        | .lit x => x = c
        | .dcls => c.isDigit
        | .wcls => isWordChar c
        | .scls => isJsSpace c))
    else
      items.any (fun it =>
        match it with
        | .lit x => x = c
        | .dcls => c.isDigit
        | .wcls => isWordChar c
        | .scls => isJsSpace c))
  | .grp _ _, _ => false

mutual

/-- Backtracking matcher in continuation-passing style, fuelled.  The
alternation order follows the JS engine: greedy quantifiers try the longer
reading first, lazy ones the shorter. -/
def rMatch : Nat → List (RNode × RQuant) → Str → Caps →
    (Str → Caps → Except Unit (Option Caps)) → Except Unit (Option Caps)
  | 0, _, _, _, _ => .error ()
  | Nat.succ _, [], s, caps, k => k s caps
  | Nat.succ f, (n, q) :: ps, s, caps, k =>
    match q with
    | .one => rMatchNode f n s caps (fun s2 c2 => rMatch f ps s2 c2 k)
    | .opt lazy =>
      if lazy then
        rTry (rMatch f ps s caps k)
          (fun _ => rMatchNode f n s caps (fun s2 c2 => rMatch f ps s2 c2 k))
      else
        rTry (rMatchNode f n s caps (fun s2 c2 => rMatch f ps s2 c2 k))
          (fun _ => rMatch f ps s caps k)
    | .star lazy => rMatchStar f n lazy s caps (fun s2 c2 => rMatch f ps s2 c2 k)
    | .plus lazy =>
      rMatchNode f n s caps (fun s2 c2 => rMatchStar f n lazy s2 c2
        (fun s3 c3 => rMatch f ps s3 c3 k))

def rMatchNode : Nat → RNode → Str → Caps →
    (Str → Caps → Except Unit (Option Caps)) → Except Unit (Option Caps)
  | 0, _, _, _, _ => .error ()
  | Nat.succ f, RNode.grp i body, s, caps, k =>
    rMatch f body s caps
      (fun s2 c2 => k s2 (capSet c2 i (s.take (s.length - s2.length))))
  | Nat.succ _, n, s, caps, k =>
    match s with
    | c :: t => if rNodeChar n c then k t caps else .ok none
    | [] => .ok none

def rMatchStar : Nat → RNode → Bool → Str → Caps →
    (Str → Caps → Except Unit (Option Caps)) → Except Unit (Option Caps)
  | 0, _, _, _, _, _ => .error ()
  | Nat.succ f, n, lazy, s, caps, k =>
    if lazy then
      rTry (k s caps)
        (fun _ => rMatchNode f n s caps (fun s2 c2 => rMatchStar f n lazy s2 c2 k))
    else
      rTry (rMatchNode f n s caps (fun s2 c2 => rMatchStar f n lazy s2 c2 k))
        (fun _ => k s caps)

end

/-- Anchored full match (`^pattern$`): the continuation accepts only at
the end of the subject. -/
def rMatchFull (nodes : List (RNode × RQuant)) (s : Str) : Except Unit (Option Caps) :=
  rMatch (1000 * (s.length + 1) + 1000) nodes s []
    (fun rest caps => if rest.isEmpty then .ok (some caps) else .ok none)

/-- `filename.replace(/\.md$/, "")`. -/
def stripMdExt (filename : Str) : Str :=
  if (".md".toList).isSuffixOf filename then filename.take (filename.length - 3)
  else filename

/-- Embeds `extractNumberFromFilename` (templateUtils.ts lines 451-501).
Outer `none` means the fuelled engine gave no verdict (never hit on the
inputs considered here); `some none` is the JS `null`; `some (some v)` is
a returned capture.  An empty `match[1]` is falsy in JS and yields null. -/
def extractNumberFromFilename (filename template : Str) : Option (Option Str) :=
  let baseFilename := stripMdExt filename
  match parseRegex (buildNumberPattern template) with
  | none => some none
  | some nodes =>
    match rMatchFull nodes baseFilename with
    | .error _ => none
    | .ok none => some none
    | .ok (some caps) =>
      match caps.find? (fun e => decide (e.1 = 1)) with
      | some e => if e.2.isEmpty then some none else some (some e.2)
      | none => some none

/-! ## Cleanup of deleted/closed issues (file-manager.ts lines 254-335) -/

/-- A remote issue as consumed by `cleanupDeletedIssues`
(`allIssuesIncludingRecentlyClosed`): `closed_at` is `none` for JS
`null`. -/
structure IssueSnapshot where
  number : Nat
  state : Str
  closed_at : Option Str
deriving DecidableEq, Repr

/-- A frontmatter property value as Obsidian returns it: a boolean or a
string. -/
inductive PropVal where
  | bool (b : Bool)
  | str (s : Str)
deriving DecidableEq, Repr

/-- JS truthiness of a property value (empty string falsy). -/
def propTruthy : PropVal → Bool
  | .bool b => b
  | .str s => !s.isEmpty

/-- JS `String(v)`. -/
def propToString : PropVal → Str
  | .bool true => "true".toList
  | .bool false => "false".toList
  | .str s => s

def lowerStr (s : Str) : Str := s.map Char.toLower

/-- JS `replace(CHAR_34, "")` on a string pattern removes only the first
double quote. -/
def removeFirstQuote : Str → Str
  | [] => []
  | c :: t => if c = dquoteC then t else c :: removeFirstQuote t

/-- `properties.allowDelete ? String(properties.allowDelete).toLowerCase()
.replace(CHAR_34, "") === "true" : repo.allowDeleteIssue` — a falsy
property value (absent, `false`, or `""`) falls back to the repository
default. -/
def effectiveAllowDelete (p : Option PropVal) (repoDefault : Bool) : Bool :=
  match p with
  | some v =>
    if propTruthy v then
      decide (lowerStr (removeFirstQuote (propToString v)) = "true".toList)
    else repoDefault
  | none => repoDefault

/-- Outcome of one iteration of the per-file loop: `keep` = the loop body
falls through without touching the file (including the
`shouldDelete && !allowDelete` case), `skipUnknown` = the
`!fileNumberString` branch (a debug notice is logged and the file is left
untouched, lines 286-292), `delete reason` = `trashFile` plus the info
notice with `reason`. -/
inductive CleanupAction where
  | keep
  | skipUnknown
  | delete (reason : Str)
deriving DecidableEq, Repr

def dayMs : Int := 86400000

def intToStr (n : Int) : Str := (toString n).toList

/-- Decision of one iteration of the file loop in `cleanupDeletedIssues`
(file-manager.ts lines 271-331) for one file.  `propNumber` is the
stringified frontmatter `number` property (`none` when absent or falsy);
`fileName`/`noteTemplate` feed the filename fallback, where a fuel-starved
engine answer is treated as null (it never occurs on the inputs considered
here).  The `cutoffDate` built with `setDate(getDate() - days)` is
modelled as `now - days * 86400000` ms, and `Date.now()` in the
`daysClosed` computation as the same `now`; a `closed_at` that parses to
`NaN` (`env.parse = none`) makes the `<` comparison false, so the file is
kept. -/
def cleanupFileAction (env : JsDateEnv) (now : Int) (days : Nat)
    (propNumber : Option Str) (fileName noteTemplate : Str)
    (propAllowDelete : Option PropVal) (repoAllowDelete : Bool)
    (repoName : Str) (hist : List IssueSnapshot) : CleanupAction :=
  let fileNumberString : Option Str :=
    match propNumber with
    | some n => some n
    | none => (extractNumberFromFilename fileName noteTemplate).getD none
  match fileNumberString with
  | none => .skipUnknown
  | some num =>
    let sd : Option Str :=
      match hist.find? (fun iss => decide (natToStr iss.number = num)) with
      | some iss =>
        if iss.state = "closed".toList then
          match iss.closed_at with
          | some ca =>
            match env.parse ca with
            | some t =>
              if t < now - (days : Int) * dayMs then
                some ("Deleted issue ".toList ++ num ++ " from ".toList ++ repoName ++
                  " (closed ".toList ++ intToStr ((now - t).fdiv dayMs) ++
                  " days ago, threshold: ".toList ++ natToStr days ++ " days)".toList)
              else none
            | none => none
          | none => none
        else none
      | none =>
        some ("Deleted issue ".toList ++ num ++ " from ".toList ++ repoName ++
          " as it\x27s no longer tracked (closed > ".toList ++ natToStr days ++
          " days or deleted)".toList)
    match sd with
    | some reason =>
      if effectiveAllowDelete propAllowDelete repoAllowDelete then .delete reason
      else .keep
    | none => .keep

/-- Item with number 42 for the C3 witness. -/
def c3Data : TemplateData :=
  ⟨"T".toList, "T".toList, 42, "open".toList, "open".toList, "alice".toList,
    none, some [], some [], 5, some 6, none, "acme/widgets".toList,
    "acme".toList, "widgets".toList, "issue".toList, "b".toList, "u".toList,
    some ("v1".toList), none, none, none, none, none, some 0, false, none, none⟩

/-- Concrete date environment for the cleanup witnesses. -/
def cleanupEnv : JsDateEnv where
  parse := fun s => if s = "2024-01-01T00:00:00Z".toList then some 0 else none
  format := fun _ _ => []
  localeDate := fun _ => []
  localeString := fun _ => []

/-- History with issue 42 closed at time 0. -/
def c5Hist : List IssueSnapshot :=
  [⟨42, "closed".toList, some ("2024-01-01T00:00:00Z".toList)⟩]

/-- History with issue 7 still open. -/
def c6Hist : List IssueSnapshot := [⟨7, "open".toList, none⟩]

theorem dropLit_length {lit s t : Str} (h : dropLit lit s = some t) :
    t.length + lit.length = s.length := by
  unfold dropLit at h
  split at h
  · rename_i hp
    cases h
    have := List.IsPrefix.length_le (List.isPrefixOf_iff_prefix.mp hp)
    simp [List.length_drop]
    omega
  · exact absurd h (by simp)

theorem dropLit_length_le {lit s t : Str} (h : dropLit lit s = some t) :
    t.length ≤ s.length := by
  have := dropLit_length h; omega

theorem dropWhile_length_le (p : Char → Bool) (s : Str) :
    (s.dropWhile p).length ≤ s.length :=
  (List.dropWhile_suffix p).sublist.length_le

theorem matchQuote_length {s t : Str} (h : matchQuote s = some t) :
    t.length + 1 = s.length := by
  unfold matchQuote at h
  match s with
  | [] => exact absurd h (by simp)
  | c :: u =>
    simp only at h
    split at h
    · cases h; simp
    · exact absurd h (by simp)

theorem matchSpacePlus_length {s t : Str} (h : matchSpacePlus s = some t) :
    t.length < s.length := by
  unfold matchSpacePlus at h
  match s with
  | [] => exact absurd h (by simp)
  | c :: u =>
    simp only at h
    split at h
    · cases h
      have := dropWhile_length_le isJsSpace u
      simp
      omega
    · exact absurd h (by simp)

theorem matchName_length {s nm t : Str} (h : matchName s = some (nm, t)) :
    t.length ≤ s.length := by
  unfold matchName at h
  simp only at h
  split at h
  · exact absurd h (by simp)
  · cases h
    exact dropWhile_length_le _ s

theorem matchEndAt_length {s t : Str} (h : matchEndAt s = some t) :
    t.length < s.length := by
  unfold matchEndAt at h
  cases h1 : dropLit [lbrace, '%'] s with
  | none => rw [h1] at h; exact absurd h (by simp)
  | some t1 =>
    rw [h1] at h
    simp only [Option.some_bind] at h
    cases h2 : dropLit ("endpersist".toList) (t1.dropWhile isJsSpace) with
    | none => rw [h2] at h; exact absurd h (by simp)
    | some t3 =>
      rw [h2] at h
      simp only [Option.some_bind] at h
      have l1 := dropLit_length h1
      have l2 := dropLit_length_le h2
      have l3 := dropLit_length_le h
      have l4 := dropWhile_length_le isJsSpace t1
      have l5 := dropWhile_length_le isJsSpace t3
      simp only [List.length_cons, List.length_nil] at l1
      omega

theorem splitAtEnd_length : ∀ {s ct r : Str}, splitAtEnd s = some (ct, r) →
    r.length < s.length := by
  intro s
  induction s with
  | nil => intro ct r h; exact absurd h (by simp [splitAtEnd])
  | cons c t ih =>
    intro ct r h
    unfold splitAtEnd at h
    cases h1 : matchEndAt (c :: t) with
    | some rest =>
      rw [h1] at h
      cases h
      exact matchEndAt_length h1
    | none =>
      rw [h1] at h
      cases h2 : splitAtEnd t with
      | none => rw [h2] at h; exact absurd h (by simp)
      | some p =>
        rw [h2] at h
        cases p with
        | mk ct' r' =>
          simp only at h
          cases h
          have := ih h2
          simp
          omega

theorem matchPersistAt_length : ∀ {s nm ct rest : Str},
    matchPersistAt s = some (nm, ct, rest) → rest.length < s.length := by
  intro s nm ct rest h
  unfold matchPersistAt at h
  cases h1 : dropLit [lbrace, '%'] s with
  | none => rw [h1] at h; exact absurd h (by simp)
  | some t1 =>
    rw [h1] at h
    simp only [Option.some_bind] at h
    cases h2 : dropLit ("persist".toList) (t1.dropWhile isJsSpace) with
    | none => rw [h2] at h; exact absurd h (by simp)
    | some t3 =>
      rw [h2] at h
      simp only [Option.some_bind] at h
      cases h5 : matchSpacePlus t3 with
      | none => rw [h5] at h; exact absurd h (by simp)
      | some t5 =>
        rw [h5] at h
        simp only [Option.some_bind] at h
        cases h6 : matchQuote t5 with
        | none => rw [h6] at h; exact absurd h (by simp)
        | some t6 =>
          rw [h6] at h
          simp only [Option.some_bind] at h
          cases hn : matchName t6 with
          | none => rw [hn] at h; exact absurd h (by simp)
          | some nt =>
            rw [hn] at h
            simp only [Option.some_bind] at h
            cases h7 : matchQuote nt.2 with
            | none => rw [h7] at h; exact absurd h (by simp)
            | some t7 =>
              rw [h7] at h
              simp only [Option.some_bind] at h
              cases h9 : dropLit ['%', rbrace] (t7.dropWhile isJsSpace) with
              | none => rw [h9] at h; exact absurd h (by simp)
              | some t9 =>
                rw [h9] at h
                simp only [Option.some_bind] at h
                cases hs : splitAtEnd t9 with
                | none => rw [hs] at h; exact absurd h (by simp)
                | some p =>
                  rw [hs] at h
                  simp only [Option.map_some'] at h
                  cases h
                  have e1 := dropLit_length h1
                  have e2 := dropLit_length_le h2
                  have e4 := dropWhile_length_le isJsSpace t1
                  have e5 := matchSpacePlus_length h5
                  have e6 := matchQuote_length h6
                  obtain ⟨nm', t'⟩ := nt
                  have e7 := matchName_length hn
                  have e8 := matchQuote_length h7
                  have e9 := dropWhile_length_le isJsSpace t7
                  have e10 := dropLit_length_le h9
                  have e11 := splitAtEnd_length hs
                  simp at e1
                  simp only at e8
                  omega

theorem mapSet_keys (m : PersistMap) (k : Str) (v : PersistBlockInfo) :
    (mapSet m k v).map Prod.fst =
      if m.any (fun e => decide (e.1 = k)) then m.map Prod.fst
      else m.map Prod.fst ++ [k] := by
  unfold mapSet
  split
  · simp only [List.map_map]
    apply List.map_congr_left
    intro e _
    by_cases he : e.1 = k
    · simp [he]
    · simp [he]
  · simp

theorem mapSet_keysNodup {m : PersistMap} {k : Str} {v : PersistBlockInfo}
    (h : (m.map Prod.fst).Nodup) : ((mapSet m k v).map Prod.fst).Nodup := by
  rw [mapSet_keys]
  split
  · exact h
  · rename_i hany
    simp only [List.any_eq_true, decide_eq_true_eq, not_exists] at hany
    refine List.Nodup.append h (List.nodup_singleton k) ?_
    intro x hx hk
    simp only [List.mem_singleton] at hk
    subst hk
    simp only [List.mem_map] at hx
    obtain ⟨e, he, hx⟩ := hx
    exact hany e ⟨he, hx⟩

theorem entriesFor_nil_of_any_false {m : PersistMap} {k : Str}
    (h : m.any (fun e => decide (e.1 = k)) = false) : entriesFor m k = [] := by
  unfold entriesFor
  rw [List.filter_eq_nil_iff]
  intro e he
  simp only [List.any_eq_false, decide_eq_true_eq] at h
  simpa using h e he

theorem filterRepl_self (m : PersistMap) (k : Str) (v : PersistBlockInfo)
    (hn : (m.map Prod.fst).Nodup)
    (hany : m.any (fun e => decide (e.1 = k)) = true) :
    List.filter (fun e => decide (e.1 = k))
      (m.map (fun e => if e.1 = k then (k, v) else e)) = [(k, v)] := by
  induction m with
  | nil => simp at hany
  | cons e es ih =>
    simp only [List.map_cons, List.nodup_cons] at hn
    by_cases he : e.1 = k
    · simp only [List.map_cons, if_pos he, List.filter_cons, decide_eq_true_eq]
      rw [if_pos (by simp)]
      have hnil : List.filter (fun e => decide (e.1 = k)) (es.map
          (fun e => if e.1 = k then (k, v) else e)) = [] := by
        rw [List.filter_eq_nil_iff]
        intro x hx
        simp only [List.mem_map] at hx
        obtain ⟨e', he', hx⟩ := hx
        by_cases h2 : e'.1 = k
        · exact absurd (he ▸ h2 ▸ (List.mem_map_of_mem Prod.fst he' : e'.1 ∈ _)) hn.1
        · subst hx
          simp [if_neg h2, h2]
      rw [hnil]
    · have hany' : es.any (fun e => decide (e.1 = k)) = true := by
        simp only [List.any_cons, Bool.or_eq_true] at hany
        rcases hany with h | h
        · exact absurd (of_decide_eq_true h) he
        · exact h
      simp only [List.map_cons, if_neg he, List.filter_cons, decide_eq_true_eq,
        if_neg he]
      exact ih hn.2 hany'

theorem filterRepl_ne (m : PersistMap) (k k' : Str) (v : PersistBlockInfo)
    (hk : k' ≠ k) :
    List.filter (fun e => decide (e.1 = k'))
      (m.map (fun e => if e.1 = k then (k, v) else e)) =
    List.filter (fun e => decide (e.1 = k')) m := by
  induction m with
  | nil => simp
  | cons e es ih =>
    simp only [List.map_cons, List.filter_cons, decide_eq_true_eq]
    by_cases he : e.1 = k
    · rw [if_pos he]
      simp only [decide_eq_true_eq]
      rw [if_neg (fun h => hk h.symm), if_neg (fun h : e.1 = k' => hk (h ▸ he))]
      exact ih
    · rw [if_neg he]
      by_cases h2 : e.1 = k'
      · rw [if_pos h2, if_pos h2, ih]
      · rw [if_neg h2, if_neg h2]
        exact ih

theorem mapSet_entriesFor_self (m : PersistMap) (k : Str) (v : PersistBlockInfo)
    (hn : (m.map Prod.fst).Nodup) : entriesFor (mapSet m k v) k = [(k, v)] := by
  unfold mapSet entriesFor
  cases hany : m.any (fun e => decide (e.1 = k)) with
  | false =>
    rw [if_neg (by simp), List.filter_append]
    have hnil := entriesFor_nil_of_any_false hany
    unfold entriesFor at hnil
    rw [hnil]
    simp
  | true =>
    rw [if_pos rfl]
    exact filterRepl_self m k v hn hany

theorem mapSet_entriesFor_ne (m : PersistMap) (k k' : Str) (v : PersistBlockInfo)
    (hk : k' ≠ k) : entriesFor (mapSet m k v) k' = entriesFor m k' := by
  unfold mapSet entriesFor
  cases hany : m.any (fun e => decide (e.1 = k)) with
  | false =>
    rw [if_neg (by simp), List.filter_append]
    simp [Ne.symm hk]
  | true =>
    rw [if_pos rfl]
    exact filterRepl_ne m k k' v hk

theorem mapGet_eq_entriesFor (m : PersistMap) (k : Str) :
    mapGet m k = (entriesFor m k).head?.map Prod.snd := by
  unfold mapGet entriesFor
  induction m with
  | nil => simp
  | cons e es ih =>
    by_cases he : e.1 = k
    · rw [List.find?_cons_of_pos _ (by simp [he]),
        List.filter_cons_of_pos (by simp [he])]
      simp
    · rw [List.find?_cons_of_neg _ (by simp [he]),
        List.filter_cons_of_neg (by simp [he])]
      exact ih

theorem extractPersistBlocks_eq_fold (content : Str) :
    extractPersistBlocks content = extractFold (persistMatches content) [] := rfl

theorem extractFold_keysNodup (ms : List PMatch) (m0 : PersistMap)
    (h : (m0.map Prod.fst).Nodup) : ((extractFold ms m0).map Prod.fst).Nodup := by
  induction ms generalizing m0 with
  | nil => exact h
  | cons pm rest ih => exact ih _ (mapSet_keysNodup h)

theorem extractFold_entriesFor (ms : List PMatch) (m0 : PersistMap) (k : Str)
    (hn : (m0.map Prod.fst).Nodup) :
    entriesFor (extractFold ms m0) k =
      ((ms.filter (fun pm => decide (pm.name = k))).getLast?.map
        (fun pm => [(k, infoOf pm)])).getD (entriesFor m0 k) := by
  induction ms generalizing m0 with
  | nil => simp [extractFold]
  | cons pm rest ih =>
    have step : extractFold (pm :: rest) m0 = extractFold rest (mapSet m0 pm.name (infoOf pm)) := rfl
    rw [step, ih _ (mapSet_keysNodup hn)]
    by_cases he : pm.name = k
    · simp only [List.filter_cons, decide_eq_true_eq, if_pos he]
      cases hrest : rest.filter (fun pm => decide (pm.name = k)) with
      | nil =>
        simp only [List.getLast?_nil, Option.map_none', Option.getD_none]
        have hone : ([pm] : List PMatch).getLast? = some pm := rfl
        rw [hone]
        simp only [Option.map_some', Option.getD_some]
        subst he
        exact mapSet_entriesFor_self m0 pm.name (infoOf pm) hn
      | cons q qs =>
        rw [List.getLast?_cons_cons]
        cases hql : (q :: qs).getLast? with
        | none =>
          exact absurd (List.getLast?_eq_none_iff.mp hql) (by simp)
        | some x =>
          simp only [Option.map_some', Option.getD_some]
    · simp only [List.filter_cons, decide_eq_true_eq, if_neg he]
      rw [mapSet_entriesFor_ne m0 pm.name k (infoOf pm) (fun h => he h.symm)]

/-- Claim C10: duplicate persist-block names keep exactly one map entry,
holding the content, position and full match of the last occurrence in the
text. -/
theorem claim_C10 (content : Str) (nm : Str) (lastM : PMatch)
    (_hdup : 2 ≤ ((persistMatches content).filter (fun pm => decide (pm.name = nm))).length)
    (hlast : ((persistMatches content).filter (fun pm => decide (pm.name = nm))).getLast? = some lastM) :
    entriesFor (extractPersistBlocks content) nm = [(nm, infoOf lastM)] ∧
    mapGet (extractPersistBlocks content) nm = some (infoOf lastM) := by
  have hent : entriesFor (extractPersistBlocks content) nm = [(nm, infoOf lastM)] := by
    rw [extractPersistBlocks_eq_fold, extractFold_entriesFor _ _ _ (by simp), hlast]
    rfl
  refine ⟨hent, ?_⟩
  rw [mapGet_eq_entriesFor, hent]
  rfl

/-! ## Persist round-trip (claim C1) -/

theorem occursIn_iff (pat s : Str) : occursIn pat s = true ↔ pat <:+: s := by
  induction s with
  | nil => simp [occursIn, List.isEmpty_iff, List.infix_nil]
  | cons c t ih =>
    simp only [occursIn, Bool.or_eq_true, List.infix_cons_iff, ih]
    constructor
    · rintro (h | h)
      · exact Or.inl (List.isPrefixOf_iff_prefix.mp h)
      · exact Or.inr h
    · rintro (h | h)
      · exact Or.inl (List.isPrefixOf_iff_prefix.mpr h)
      · exact Or.inr h

theorem mergeScanF_processed :
    ∀ (f : Nat) (s : Str) (m : PersistMap) (nm : Str) (info : PersistBlockInfo),
    s.length < f → mapGet m nm = some info → nm ∈ (mergeScanF f s m).2 →
    persistNeedle nm info.content <:+: (mergeScanF f s m).1 := by
  intro f
  induction f with
  | zero =>
    intro s m nm info hf
    exact absurd hf (Nat.not_lt_zero _)
  | succ f ih =>
    intro s m nm info hf hget hmem
    match s with
    | [] => simp [mergeScanF] at hmem
    | c :: t =>
      simp only [mergeScanF] at hmem ⊢
      cases hm : matchPersistAt (c :: t) with
      | some trip =>
        obtain ⟨nm', ct, rest⟩ := trip
        rw [hm] at hmem
        dsimp only at hmem ⊢
        simp only [List.mem_cons] at hmem
        rcases hmem with rfl | hmem
        · rw [hget]
          exact (List.prefix_append _ _).isInfix
        · have hlen : rest.length < f := by
            have := matchPersistAt_length hm
            simp only [List.length_cons] at hf this ⊢
            omega
          exact (ih rest m nm info hlen hget hmem).trans
            (List.suffix_append _ _).isInfix
      | none =>
        rw [hm] at hmem
        dsimp only at hmem ⊢
        have hlen : t.length < f := by
          simp only [List.length_cons] at hf
          omega
        have := ih t m nm info hlen hget hmem
        exact this.trans (List.suffix_cons c _).isInfix

theorem splitNL_ne_nil (s : Str) : splitNL s ≠ [] := by
  induction s with
  | nil => simp [splitNL]
  | cons c t ih =>
    unfold splitNL
    split
    · simp
    · cases h : splitNL t with
      | nil => simp
      | cons l ls => simp

theorem splitNL_cons_of_ne (c : Char) (t : Str) (h : ¬ c = '\n') :
    splitNL (c :: t) = (c :: (splitNL t).headD []) :: (splitNL t).tail := by
  conv_lhs => rw [splitNL]
  rw [if_neg h]
  cases ht : splitNL t with
  | nil => exact absurd ht (splitNL_ne_nil t)
  | cons l ls => simp

theorem prefix_head_splitNL : ∀ (t y : Str), y <+: t → (∀ c ∈ y, c ≠ '\n') →
    y <+: (splitNL t).headD [] := by
  intro t
  induction t with
  | nil =>
    intro y hy _
    rw [List.prefix_nil.mp hy]
    exact List.nil_prefix
  | cons d t' ih =>
    intro y hy hn
    cases y with
    | nil => exact List.nil_prefix
    | cons e y' =>
      obtain ⟨he, hy'⟩ := List.cons_prefix_cons.mp hy
      subst he
      have hd : ¬ e = '\n' := hn e (by simp)
      rw [splitNL_cons_of_ne e t' hd]
      simp only [List.headD_cons]
      exact List.cons_prefix_cons.mpr ⟨rfl, ih y' hy' (fun c hc => hn c (by simp [hc]))⟩

theorem headD_mem_splitNL (s : Str) : (splitNL s).headD [] ∈ splitNL s := by
  cases hsp : splitNL s with
  | nil => exact absurd hsp (splitNL_ne_nil _)
  | cons l ls => simp

theorem infix_mem_splitNL : ∀ (s x : Str), x ≠ [] → (∀ c ∈ x, c ≠ '\n') →
    x <:+: s → ∃ l ∈ splitNL s, x <:+: l := by
  intro s
  induction s with
  | nil =>
    intro x hne _ hx
    exact absurd (List.infix_nil.mp hx) hne
  | cons c t ih =>
    intro x hne hn hx
    rcases List.infix_cons_iff.mp hx with hp | hi
    · exact ⟨(splitNL (c :: t)).headD [], headD_mem_splitNL _,
        (prefix_head_splitNL (c :: t) x hp hn).isInfix⟩
    · obtain ⟨l, hl, hxl⟩ := ih x hne hn hi
      by_cases hc : c = '\n'
      · subst hc
        refine ⟨l, ?_, hxl⟩
        simp [splitNL, hl]
      · rw [splitNL_cons_of_ne c t hc]
        cases hsp : splitNL t with
        | nil => exact absurd hsp (splitNL_ne_nil _)
        | cons l0 ls0 =>
          rw [hsp] at hl
          simp only [List.headD_cons, List.tail_cons]
          rcases List.mem_cons.mp hl with heq | hmem
          · subst heq
            exact ⟨c :: l, by simp, hxl.trans (List.suffix_cons c l).isInfix⟩
          · exact ⟨l, by simp [hmem], hxl⟩

theorem mem_joinNL_within : ∀ (ls : List Str) (x : Str), x ∈ ls → x <:+: joinNL ls := by
  intro ls
  induction ls with
  | nil => simp
  | cons l ls ih =>
    intro x hx
    cases ls with
    | nil =>
      simp only [List.mem_singleton] at hx
      subst hx
      exact List.infix_refl _
    | cons l2 ls2 =>
      rcases List.mem_cons.mp hx with rfl | hmem
      · exact (List.prefix_append x ('\n' :: joinNL (l2 :: ls2))).isInfix
      · exact (ih x hmem).trans
          (((List.suffix_cons '\n' _).trans (List.suffix_append l _)).isInfix)

theorem mem_spliceIn_of_mem {x : Str} (l : List Str) (i : Nat) (a : Str)
    (h : x ∈ l) : x ∈ spliceIn l i a := by
  unfold spliceIn
  have hx : x ∈ l.take i ++ l.drop i := by
    rw [List.take_append_drop]
    exact h
  rcases List.mem_append.mp hx with h1 | h1
  · exact List.mem_append.mpr (Or.inl h1)
  · exact List.mem_append.mpr (Or.inr (List.mem_cons.mpr (Or.inr h1)))

theorem self_mem_spliceIn (l : List Str) (i : Nat) (a : Str) : a ∈ spliceIn l i a := by
  simp [spliceIn]

theorem insertOneBlock_eq_spliceIn (ol nl : List Str) (nm : Str)
    (info : PersistBlockInfo) :
    ∃ i, insertOneBlock ol nl nm info = spliceIn nl i ('\n' :: persistNeedle nm info.content) :=
  ⟨_, rfl⟩

theorem mem_insertFold_of_mem (ol : List Str) :
    ∀ (blocks : List (Str × PersistBlockInfo)) (nl : List Str) (x : Str), x ∈ nl →
    x ∈ blocks.foldl (fun nl b => insertOneBlock ol nl b.1 b.2) nl := by
  intro blocks
  induction blocks with
  | nil => intro nl x h; exact h
  | cons b bs ih =>
    intro nl x h
    simp only [List.foldl_cons]
    apply ih
    obtain ⟨i, hi⟩ := insertOneBlock_eq_spliceIn ol nl b.1 b.2
    rw [hi]
    exact mem_spliceIn_of_mem nl i _ h

theorem blockText_mem_insertFold (ol : List Str) :
    ∀ (blocks : List (Str × PersistBlockInfo)) (nl : List Str) (nm : Str)
    (info : PersistBlockInfo), (nm, info) ∈ blocks →
    ('\n' :: persistNeedle nm info.content) ∈
      blocks.foldl (fun nl b => insertOneBlock ol nl b.1 b.2) nl := by
  intro blocks
  induction blocks with
  | nil => intro nl nm info h; simp at h
  | cons b bs ih =>
    intro nl nm info h
    simp only [List.foldl_cons]
    rcases List.mem_cons.mp h with rfl | hmem
    · apply mem_insertFold_of_mem
      obtain ⟨i, hi⟩ := insertOneBlock_eq_spliceIn ol nl nm info
      rw [hi]
      exact self_mem_spliceIn nl i _
    · exact ih _ nm info hmem

theorem persistNeedle_ne_nil (nm ct : Str) : persistNeedle nm ct ≠ [] := by
  simp [persistNeedle, persistOpenOf]

theorem newline_not_mem_needle {nm ct : Str} (h1 : '\n' ∉ nm) (h2 : '\n' ∉ ct) :
    '\n' ∉ persistNeedle nm ct := by
  have hA : '\n' ∉ "\x7b% persist \"".toList := by decide
  have hB : '\n' ∉ "\" %\x7d".toList := by decide
  have hC : '\n' ∉ persistEndLit := by decide
  intro h
  unfold persistNeedle persistOpenOf at h
  rcases List.mem_append.mp h with h | h
  · rcases List.mem_append.mp h with h | h
    · rcases List.mem_append.mp h with h | h
      · rcases List.mem_append.mp h with h | h
        · exact hA h
        · exact h1 h
      · exact hB h
    · exact h2 h
  · exact hC h

theorem mapGet_mem {m : PersistMap} {nm : Str} {info : PersistBlockInfo}
    (h : mapGet m nm = some info) : (nm, info) ∈ m := by
  unfold mapGet at h
  cases hf : m.find? (fun e => decide (e.1 = nm)) with
  | none => rw [hf] at h; exact absurd h (by simp)
  | some e =>
    rw [hf] at h
    simp only [Option.map_some'] at h
    cases h
    have hkey : e.1 = nm := by
      have := List.find?_some hf
      simpa using this
    have hmem := List.mem_of_find?_eq_some hf
    have : e = (nm, e.2) := by
      cases e
      simp at hkey
      simp [hkey]
    rw [← this]
    exact hmem

/-- Claim C1 (amended): `mergePersistBlocks(newDoc, oldDoc,
extractPersistBlocks(oldDoc))` contains the block
`{% persist "name" %}content{% endpersist %}` verbatim for every extracted
block whose name and stored content contain no newline (in particular for
the spec's block `{% persist "notes" %}hello{% endpersist %}`).  Without
the newline restriction the claim is false, see the counterexample. -/
theorem claim_C1 (newC oldC nm : Str) (info : PersistBlockInfo)
    (hget : mapGet (extractPersistBlocks oldC) nm = some info)
    (hnm : '\n' ∉ nm) (hct : '\n' ∉ info.content) :
    persistNeedle nm info.content <:+:
      mergePersistBlocks newC oldC (extractPersistBlocks oldC) := by
  have hnn : ∀ c ∈ persistNeedle nm info.content, c ≠ '\n' := by
    intro c hc hcn
    exact newline_not_mem_needle hnm hct (hcn ▸ hc)
  show persistNeedle nm info.content <:+:
    (if ((extractPersistBlocks oldC).filter
          (fun e => !((mergeScan newC (extractPersistBlocks oldC)).2.contains e.1))).isEmpty
      then (mergeScan newC (extractPersistBlocks oldC)).1
      else insertPersistBlocksIntelligently oldC
        (mergeScan newC (extractPersistBlocks oldC)).1
        ((extractPersistBlocks oldC).filter
          (fun e => !((mergeScan newC (extractPersistBlocks oldC)).2.contains e.1))))
  by_cases hmem : nm ∈ (mergeScan newC (extractPersistBlocks oldC)).2
  · have hout : persistNeedle nm info.content <:+:
        (mergeScan newC (extractPersistBlocks oldC)).1 :=
      mergeScanF_processed _ _ _ _ _ (Nat.lt_succ_self _) hget hmem
    split
    · exact hout
    · show persistNeedle nm info.content <:+: joinNL _
      obtain ⟨l, hl, hxl⟩ := infix_mem_splitNL _ _
        (persistNeedle_ne_nil nm info.content) hnn hout
      exact hxl.trans (mem_joinNL_within _ l (mem_insertFold_of_mem (splitNL oldC) _ _ l hl))
  · have hpair := mapGet_mem hget
    have htoin : (nm, info) ∈ (extractPersistBlocks oldC).filter
        (fun e => !((mergeScan newC (extractPersistBlocks oldC)).2.contains e.1)) :=
      List.mem_filter.mpr ⟨hpair, by simpa using hmem⟩
    split
    · rename_i hins
      rw [List.isEmpty_iff] at hins
      rw [hins] at htoin
      simp at htoin
    · show persistNeedle nm info.content <:+: joinNL _
      have hblock := blockText_mem_insertFold (splitNL oldC) _
        (splitNL (mergeScan newC (extractPersistBlocks oldC)).1) nm info htoin
      have := mem_joinNL_within _ _ hblock
      exact ((List.suffix_cons '\n' _).isInfix).trans this

/-- Counterexample to claim C1 as stated: block `a` is extracted from the
old document with content `L1\nX\nL2`, but the merged update-mode output
does not contain `{% persist "a" %}L1\nX\nL2{% endpersist %}` verbatim —
the heuristic reinsertion of the missing block `b` splices `b` into the
middle of `a`'s restored span. -/
theorem claim_C1_counterexample :
    mapGet (extractPersistBlocks c1OldDoc) ("a".toList) =
      some ⟨"L1\nX\nL2".toList, 0, persistNeedle "a".toList "L1\nX\nL2".toList⟩ ∧
    ¬ (persistNeedle "a".toList "L1\nX\nL2".toList <:+:
        mergePersistBlocks c1NewDoc c1OldDoc (extractPersistBlocks c1OldDoc)) := by
  constructor
  · decide
  · decide

theorem claim_C1_witness :
    mapGet (extractPersistBlocks c1wOld) ("notes".toList) =
      some ⟨"hello".toList, 6, persistNeedle "notes".toList "hello".toList⟩ ∧
    ('\n' ∉ ("notes".toList : Str)) ∧ ('\n' ∉ ("hello".toList : Str)) ∧
    persistNeedle "notes".toList "hello".toList <:+:
      mergePersistBlocks c1wNew c1wOld (extractPersistBlocks c1wOld) :=
  ⟨by decide, by decide, by decide,
    claim_C1 c1wNew c1wOld ("notes".toList)
      ⟨"hello".toList, 6, persistNeedle "notes".toList "hello".toList⟩
      (by decide) (by decide) (by decide)⟩

theorem claim_C10_witness :
    2 ≤ ((persistMatches c10Doc).filter (fun pm => decide (pm.name = "n".toList))).length ∧
    ((persistMatches c10Doc).filter (fun pm => decide (pm.name = "n".toList))).getLast? =
      some c10Last ∧
    entriesFor (extractPersistBlocks c10Doc) ("n".toList) = [("n".toList, infoOf c10Last)] ∧
    mapGet (extractPersistBlocks c10Doc) ("n".toList) = some (infoOf c10Last) :=
  ⟨by decide, by decide,
    (claim_C10 c10Doc ("n".toList) c10Last (by decide) (by decide)).1,
    (claim_C10 c10Doc ("n".toList) c10Last (by decide) (by decide)).2⟩

/-- Claim C2: in update mode, when the remote `updated_at` is not strictly
newer than the date parsed from the stored `updated:` frontmatter value,
`shouldUpdateContent` returns false and `createOrUpdateIssueFile` skips,
leaving the document unchanged — so a second reconciliation run with no
remote changes writes nothing for this document. -/
theorem claim_C2 (env : JsDateEnv) (ex newC frag gh s : Str) (g e : Int)
    (hs : extractUpdatedField ex = some s)
    (hg : env.parse gh = some g) (he : env.parse s = some e)
    (hnotnewer : g ≤ e) :
    shouldUpdateContent env ex gh = some false ∧
    createOrUpdateIssueAction env (some ex) UpdateMode.update newC frag gh =
      some FileAction.skip := by
  have h1 : shouldUpdateContent env ex gh = some false := by
    unfold shouldUpdateContent
    rw [hs]
    dsimp only
    rw [hg]
    dsimp only
    rw [he]
    dsimp only
    simp only [Option.some.injEq]
    exact decide_eq_false (Int.not_lt.mpr hnotnewer)
  refine ⟨h1, ?_⟩
  unfold createOrUpdateIssueAction
  dsimp only
  rw [h1]

theorem claim_C2_witness :
    extractUpdatedField c2Doc = some ("2024-05-02T10:00:00Z".toList) ∧
    witnessEnv.parse ("2024-05-01T10:00:00Z".toList) = some 100 ∧
    witnessEnv.parse ("2024-05-02T10:00:00Z".toList) = some 200 ∧
    shouldUpdateContent witnessEnv c2Doc ("2024-05-01T10:00:00Z".toList) = some false ∧
    createOrUpdateIssueAction witnessEnv (some c2Doc) UpdateMode.update
      ("new".toList) ("frag".toList) ("2024-05-01T10:00:00Z".toList) =
      some FileAction.skip :=
  ⟨by decide, by decide, by decide,
    (claim_C2 witnessEnv c2Doc ("new".toList) ("frag".toList)
      ("2024-05-01T10:00:00Z".toList) ("2024-05-02T10:00:00Z".toList) 100 200
      (by decide) (by decide) (by decide) (by decide)).1,
    (claim_C2 witnessEnv c2Doc ("new".toList) ("frag".toList)
      ("2024-05-01T10:00:00Z".toList) ("2024-05-02T10:00:00Z".toList) 100 200
      (by decide) (by decide) (by decide) (by decide)).2⟩

/-- Claim C8: when a document exists and the effective update mode is
`"none"`, `createOrUpdateIssueFile` skips, leaving the content
byte-for-byte unchanged, whatever the remote item now renders to. -/
theorem claim_C8 (env : JsDateEnv) (ex newC frag gh : Str) :
    createOrUpdateIssueAction env (some ex) UpdateMode.noneMode newC frag gh =
      some FileAction.skip ∧
    appliedContent ex FileAction.skip = ex :=
  ⟨rfl, rfl⟩

/-- Claim C7: with a non-empty filter set, include mode keeps exactly the
items having at least one label in the set, and exclude mode keeps exactly
the items having none; an item without labels is dropped under include and
kept under exclude. -/
theorem claim_C7 (items : List FilterItem) (filters : List Str)
    (_hne : filters ≠ []) :
    (∀ i, i ∈ applyLabelFilter items .inclMode filters ↔
      i ∈ items ∧ ∃ l ∈ itemLabelNames i, l ∈ filters) ∧
    (∀ i, i ∈ applyLabelFilter items .exclMode filters ↔
      i ∈ items ∧ ¬ ∃ l ∈ itemLabelNames i, l ∈ filters) := by
  constructor
  · intro i
    unfold applyLabelFilter
    rw [List.mem_filter]
    refine and_congr_right fun _ => ?_
    cases hl : i.labels with
    | none => simp [itemLabelNames, hl]
    | some ls =>
      simp only [itemLabelNames, hl, Option.getD_some]
      simp only [List.any_eq_true, List.elem_iff, decide_eq_true_eq]
      constructor
      · rintro ⟨f, hf, hm⟩
        exact ⟨f, hm, hf⟩
      · rintro ⟨l, hm, hf⟩
        exact ⟨l, hf, hm⟩
  · intro i
    unfold applyLabelFilter
    rw [List.mem_filter]
    refine and_congr_right fun _ => ?_
    cases hl : i.labels with
    | none => simp [itemLabelNames, hl]
    | some ls =>
      simp only [itemLabelNames, hl, Option.getD_some]
      simp only [Bool.not_eq_true', List.any_eq_false, List.elem_iff,
        decide_eq_true_eq]
      constructor
      · intro hall
        rintro ⟨l, hm, hf⟩
        exact hall l hf hm
      · intro hne f hf hm
        exact hne ⟨f, hm, hf⟩

theorem claim_C7_witness :
    itemA ∈ applyLabelFilter [itemA, itemB] LabelFilterMode.inclMode ["bug".toList] ∧
    itemB ∉ applyLabelFilter [itemA, itemB] LabelFilterMode.inclMode ["bug".toList] ∧
    itemB ∈ applyLabelFilter [itemA, itemB] LabelFilterMode.exclMode ["bug".toList] ∧
    itemA ∉ applyLabelFilter [itemA, itemB] LabelFilterMode.exclMode ["bug".toList] := by
  have h := claim_C7 [itemA, itemB] ["bug".toList] (by decide)
  refine ⟨?_, ?_, ?_, ?_⟩
  · exact (h.1 itemA).mpr ⟨by decide, ⟨"bug".toList, by decide, by decide⟩⟩
  · intro hm
    rcases ((h.1 itemB).mp hm).2 with ⟨l, hl, _⟩
    simp [itemLabelNames, itemB] at hl
  · refine (h.2 itemB).mpr ⟨by decide, ?_⟩
    rintro ⟨l, hl, _⟩
    simp [itemLabelNames, itemB] at hl
  · intro hm
    exact ((h.2 itemA).mp hm).2 ⟨"bug".toList, by decide, by decide⟩

/-! ## Conditional-block evaluation (claim C4) -/

theorem matchCondAt_length {s nm ct rest : Str}
    (h : matchCondAt s = some (nm, ct, rest)) : rest.length < s.length := by
  unfold matchCondAt at h
  match s with
  | [] => exact absurd h (by simp)
  | c :: t =>
    simp only at h
    split at h
    · split at h
      · exact absurd h (by simp)
      · cases hd : t.drop (t.takeWhile isWordChar).length with
        | nil => rw [hd] at h; exact absurd h (by simp)
        | cons d u =>
          rw [hd] at h
          simp only at h
          split at h
          · cases he : u.drop ((u.takeWhile (fun e => isDotChar e && !(e = rbrace))).length) with
            | nil => rw [he] at h; exact absurd h (by simp)
            | cons e v =>
              rw [he] at h
              simp only at h
              split at h
              · cases h
                have h1 : u.length ≤ t.length := by
                  have := List.length_drop ((t.takeWhile isWordChar).length) t
                  rw [hd] at this
                  simp at this
                  omega
                have h2 : rest.length < u.length := by
                  have := List.length_drop ((u.takeWhile (fun e => isDotChar e && !(e = rbrace))).length) u
                  rw [he] at this
                  simp at this
                  omega
                simp only [List.length_cons]
                omega
              · exact absurd h (by simp)
          · exact absurd h (by simp)
    · exact absurd h (by simp)

theorem processCondF_nil (f : Nat) (d : TemplateData) : processCondF f d [] = [] := by
  cases f <;> rfl

theorem processCondF_succ_cons (f : Nat) (d : TemplateData) (c : Char) (t : Str) :
    processCondF (Nat.succ f) d (c :: t) =
      match matchCondAt (c :: t) with
      | some (nm, ct, rest) =>
        (if condTruthy (getVariableValue nm d) then ct else []) ++ processCondF f d rest
      | none => c :: processCondF f d t := rfl

theorem processCondF_fuelIrrel : ∀ (f f' : Nat) (d : TemplateData) (s : Str),
    s.length < f → s.length < f' → processCondF f d s = processCondF f' d s := by
  intro f
  induction f with
  | zero => intro f' d s hf; exact absurd hf (Nat.not_lt_zero _)
  | succ f ih =>
    intro f' d s hf hf'
    match s with
    | [] => rw [processCondF_nil, processCondF_nil]
    | c :: t =>
      match f' with
      | 0 => exact absurd hf' (Nat.not_lt_zero _)
      | Nat.succ f'' =>
        rw [processCondF_succ_cons, processCondF_succ_cons]
        cases hm : matchCondAt (c :: t) with
        | some trip =>
          obtain ⟨nm, ct, rest⟩ := trip
          dsimp only
          have hr := matchCondAt_length hm
          simp only [List.length_cons] at hf hf' hr
          rw [ih f'' d rest (by omega) (by omega)]
        | none =>
          dsimp only
          simp only [List.length_cons] at hf hf'
          rw [ih f'' d t (by omega) (by omega)]

/-- A helper for building `takeWhile`/`drop` facts over an `a ++ b :: r`
split where all of `a` satisfies `p` and `b` does not. -/
theorem takeWhile_append_stop (p : Char → Bool) :
    ∀ (a : Str) (b : Char) (r : Str), (∀ c ∈ a, p c = true) → p b = false →
    (a ++ b :: r).takeWhile p = a := by
  intro a
  induction a with
  | nil =>
    intro b r _ hb
    simp [List.takeWhile, hb]
  | cons x xs ih =>
    intro b r ha hb
    have hx : p x = true := ha x (by simp)
    rw [List.cons_append, List.takeWhile_cons, if_pos hx,
      ih b r (fun c hc => ha c (by simp [hc])) hb]

theorem matchCondAt_block (nm ct rest : Str)
    (h1 : nm ≠ []) (h2 : ∀ c ∈ nm, isWordChar c = true)
    (h3 : ∀ c ∈ ct, (isDotChar c && !(c = rbrace)) = true) :
    matchCondAt (lbrace :: (nm ++ ':' :: (ct ++ rbrace :: rest))) =
      some (nm, ct, rest) := by
  have hcolon : isWordChar ':' = false := by decide
  have htw : (nm ++ ':' :: (ct ++ rbrace :: rest)).takeWhile isWordChar = nm :=
    takeWhile_append_stop isWordChar nm ':' (ct ++ rbrace :: rest) h2 hcolon
  have hdrop : (nm ++ ':' :: (ct ++ rbrace :: rest)).drop nm.length =
      ':' :: (ct ++ rbrace :: rest) := List.drop_left nm _
  have hbr : (isDotChar rbrace && !(rbrace = rbrace)) = false := by decide
  have htw2 : (ct ++ rbrace :: rest).takeWhile (fun e => isDotChar e && !(e = rbrace)) = ct :=
    takeWhile_append_stop _ ct rbrace rest h3 hbr
  have hdrop2 : (ct ++ rbrace :: rest).drop ct.length = rbrace :: rest :=
    List.drop_left ct _
  unfold matchCondAt
  dsimp only
  rw [if_pos rfl, htw]
  rw [if_neg (by simpa using h1), hdrop]
  dsimp only
  rw [if_pos rfl, htw2, hdrop2]
  dsimp only
  rw [if_pos rfl]

/-- The third part of claim C4: a single, non-nested conditional block
`{name:content}` keeps the content exactly when the variable is truthy. -/
theorem cond_single_block (d : TemplateData) (nm ct : Str)
    (h1 : nm ≠ []) (h2 : ∀ c ∈ nm, isWordChar c = true)
    (h3 : ∀ c ∈ ct, (isDotChar c && !(c = rbrace)) = true) :
    processConditionalBlocks (lbrace :: (nm ++ ':' :: (ct ++ [rbrace]))) d =
      if condTruthy (getVariableValue nm d) then ct else [] := by
  unfold processConditionalBlocks
  have hm := matchCondAt_block nm ct [] h1 h2 h3
  rw [show (lbrace :: (nm ++ ':' :: (ct ++ [rbrace]))).length + 1 =
    Nat.succ ((lbrace :: (nm ++ ':' :: (ct ++ [rbrace]))).length) from rfl]
  rw [processCondF_succ_cons]
  rw [hm]
  dsimp only
  rw [processCondF_nil]
  simp

theorem expandDollar_cons_ne (m b a : Str) (c : Char) (t : Str) (hc : ¬ c = '$') :
    expandDollar m b a (c :: t) = c :: expandDollar m b a t := by
  cases t <;> simp [expandDollar, hc]

theorem expandDollar_no_dollar : ∀ (v m b a : Str), '$' ∉ v →
    expandDollar m b a v = v := by
  intro v
  induction v with
  | nil => intro m b a _; rfl
  | cons c t ih =>
    intro m b a h
    have hc : ¬ c = '$' := fun hcc => h (by simp [hcc])
    have ht : '$' ∉ t := fun hm => h (by simp [hm])
    rw [expandDollar_cons_ne m b a c t hc, ih m b a ht]

theorem jsReplF_noOccur : ∀ (f : Nat) (pat v before s : Str), s.length < f →
    occursIn pat s = false → jsReplF f pat v before s = s := by
  intro f
  induction f with
  | zero => intro pat v before s hf; exact absurd hf (Nat.not_lt_zero _)
  | succ f ih =>
    intro pat v before s hf ho
    match s with
    | [] => rfl
    | c :: t =>
      unfold occursIn at ho
      simp only [Bool.or_eq_false_iff] at ho
      unfold jsReplF
      rw [if_neg (by simp [ho.1])]
      simp only [List.length_cons] at hf
      rw [ih pat v (before ++ [c]) t (by omega) ho.2]

theorem jsReplaceAllLit_noOccur {pat s : Str} (v : Str)
    (ho : occursIn pat s = false) : jsReplaceAllLit pat v s = s :=
  jsReplF_noOccur _ pat v [] s (Nat.lt_succ_self _) ho

theorem occursIn_head_notMem : ∀ (s pat : Str) (p0 : Char), pat.head? = some p0 →
    p0 ∉ s → occursIn pat s = false := by
  intro s
  induction s with
  | nil =>
    intro pat p0 hp _
    match pat with
    | [] => simp at hp
    | q :: qs => rfl
  | cons c t ih =>
    intro pat p0 hp hm
    match pat with
    | [] => simp at hp
    | q :: qs =>
      simp only [List.head?_cons, Option.some.injEq] at hp
      have hq : q ∉ c :: t := by rw [hp]; exact hm
      unfold occursIn
      have hqc : ¬ (q = c) := fun h => hq (by simp [h])
      rw [Bool.or_eq_false_iff]
      constructor
      · simp [List.isPrefixOf, hqc]
      · exact ih (q :: qs) q rfl (fun h => hq (by simp [h]))

theorem foldRepl_noBrace : ∀ (L : List (Str × Str)) (s : Str),
    (∀ e ∈ L, e.1.head? = some lbrace) → lbrace ∉ s →
    L.foldl (fun acc e => jsReplaceAllLit e.1 e.2 acc) s = s := by
  intro L
  induction L with
  | nil => intro s _ _; rfl
  | cons e es ih =>
    intro s hL hs
    simp only [List.foldl_cons]
    rw [jsReplaceAllLit_noOccur e.2 (occursIn_head_notMem s e.1 lbrace (hL e (by simp)) hs)]
    exact ih s (fun x hx => hL x (by simp [hx])) hs

theorem replacementList_keys (env : JsDateEnv) (fmt : Str) (d : TemplateData) :
    ∀ e ∈ replacementList env fmt d, e.1.head? = some lbrace := by
  intro e he
  unfold replacementList at he
  simp only [List.mem_append] at he
  rcases he with ((((he | he) | he) | he) | he)
  · simp only [List.mem_cons, List.not_mem_nil, or_false] at he
    rcases he with rfl|rfl|rfl|rfl|rfl|rfl|rfl|rfl|rfl|rfl|rfl|rfl|rfl|rfl|rfl|rfl|rfl|rfl|rfl|rfl
    all_goals rfl
  · split at he
    · simp only [List.mem_cons, List.not_mem_nil, or_false] at he
      rcases he with rfl|rfl|rfl|rfl|rfl
      all_goals rfl
    · simp at he
  · cases hass : d.assignees with
    | none =>
      rw [hass] at he
      dsimp only at he
      simp only [List.mem_cons, List.not_mem_nil, or_false] at he
      rcases he with rfl|rfl|rfl
      all_goals rfl
    | some l =>
      rw [hass] at he
      dsimp only at he
      split at he
      · simp only [List.mem_cons, List.not_mem_nil, or_false] at he
        rcases he with rfl|rfl|rfl
        all_goals rfl
      · simp only [List.mem_cons, List.not_mem_nil, or_false] at he
        rcases he with rfl|rfl|rfl
        all_goals rfl
  · cases hlab : d.labels with
    | none =>
      rw [hlab] at he
      dsimp only at he
      simp only [List.mem_cons, List.not_mem_nil, or_false] at he
      rcases he with rfl|rfl|rfl|rfl
      all_goals rfl
    | some l =>
      rw [hlab] at he
      dsimp only at he
      split at he
      · simp only [List.mem_cons, List.not_mem_nil, or_false] at he
        rcases he with rfl|rfl|rfl|rfl
        all_goals rfl
      · simp only [List.mem_cons, List.not_mem_nil, or_false] at he
        rcases he with rfl|rfl|rfl|rfl
        all_goals rfl
  · simp only [List.mem_cons, List.not_mem_nil, or_false] at he
    subst he
    rfl

theorem processCond_of_match {s nm ct rest : Str} (d : TemplateData)
    (hm : matchCondAt s = some (nm, ct, rest)) :
    processConditionalBlocks s d =
      (if condTruthy (getVariableValue nm d) then ct else []) ++
        processConditionalBlocks rest d := by
  match s with
  | [] => simp [matchCondAt] at hm
  | c :: t =>
    unfold processConditionalBlocks
    rw [show (c :: t).length + 1 = Nat.succ ((c :: t).length) from rfl,
      processCondF_succ_cons, hm]
    dsimp only
    have hr := matchCondAt_length hm
    rw [processCondF_fuelIrrel ((c :: t).length) (rest.length + 1) d rest hr
      (Nat.lt_succ_self _)]

theorem processCond_rbrace (d : TemplateData) :
    processConditionalBlocks [rbrace] d = [rbrace] := by
  unfold processConditionalBlocks
  rw [show ([rbrace] : Str).length + 1 = Nat.succ 1 from rfl, processCondF_succ_cons,
    show matchCondAt [rbrace] = none from rfl]
  rw [processCondF_nil]

/-- Claim C4 (amended).  Part 1: with no close date the template
`{closed:Closed on {closed}}` renders to `"}"` (not `""`: the lazy
conditional pattern ends at the inner close brace, leaving a stray `}`).
Part 2: with a close date it renders to `Closed on <date>` (provided the
rendered date contains no brace or dollar character).  Part 3: a single
non-nested conditional block keeps its content exactly when the named
variable is truthy, where falsy is absent, `""`, `"0"`, `"false"`,
`"unknown"` or `"unassigned"`. -/
theorem claim_C4 :
    (∀ (env : JsDateEnv) (fmt : Str) (d : TemplateData), d.closed = none →
      processTemplate env c4Template d fmt = [rbrace]) ∧
    (∀ (env : JsDateEnv) (fmt : Str) (d : TemplateData) (tc : Int),
      d.closed = some tc →
      lbrace ∉ renderDate env fmt tc → '$' ∉ renderDate env fmt tc →
      processTemplate env c4Template d fmt =
        "Closed on ".toList ++ renderDate env fmt tc) ∧
    (∀ (d : TemplateData) (nm ct : Str), nm ≠ [] →
      (∀ c ∈ nm, isWordChar c = true) →
      (∀ c ∈ ct, (isDotChar c && !(c = rbrace)) = true) →
      processConditionalBlocks (lbrace :: (nm ++ ':' :: (ct ++ [rbrace]))) d =
        if condTruthy (getVariableValue nm d) then ct else []) := by
  refine ⟨?_, ?_, cond_single_block⟩
  · intro env fmt d hclosed
    have hgv : getVariableValue ("closed".toList) d = none := by
      unfold getVariableValue
      rw [if_pos rfl, hclosed]
      rfl
    have hcond : processConditionalBlocks c4Template d = [rbrace] := by
      rw [processCond_of_match d (show matchCondAt c4Template =
        some ("closed".toList, "Closed on \x7bclosed".toList, [rbrace]) from rfl)]
      rw [hgv]
      rw [show condTruthy none = false from rfl]
      rw [if_neg (by simp)]
      rw [processCond_rbrace]
      rfl
    unfold processTemplate
    rw [hcond]
    exact foldRepl_noBrace _ _ (replacementList_keys env fmt d) (by decide)
  · intro env fmt d tc hclosed hlb hdollar
    have hgv : getVariableValue ("closed".toList) d = some ("true".toList) := by
      unfold getVariableValue
      rw [if_pos rfl, hclosed]
      rfl
    have hcond : processConditionalBlocks c4Template d =
        "Closed on \x7bclosed\x7d".toList := by
      rw [processCond_of_match d (show matchCondAt c4Template =
        some ("closed".toList, "Closed on \x7bclosed".toList, [rbrace]) from rfl)]
      rw [hgv]
      rw [show condTruthy (some ("true".toList)) = true from rfl]
      rw [if_pos rfl]
      rw [processCond_rbrace]
      rfl
    unfold processTemplate
    rw [hcond]
    rw [(List.take_append_drop 20 (replacementList env fmt d)).symm]
    rw [List.foldl_append]
    have hlist : (replacementList env fmt d).take 20 =
        [("\x7btitle\x7d".toList, orElseStr d.title ("Untitled".toList)),
          ("\x7btitle_yaml\x7d".toList, orElseStr d.title_yaml ("Untitled".toList)),
          ("\x7bnumber\x7d".toList, natToStr d.number),
          ("\x7bstatus\x7d".toList, orElseStr d.status ("unknown".toList)),
          ("\x7bstate\x7d".toList, orElseStr d.state (orElseStr d.status ("unknown".toList))),
          ("\x7bauthor\x7d".toList, orElseStr d.author ("unknown".toList)),
          ("\x7bassignee\x7d".toList, optOrElse d.assignee ("unassigned".toList)),
          ("\x7brepository\x7d".toList, d.repository),
          ("\x7bowner\x7d".toList, d.owner),
          ("\x7brepoName\x7d".toList, d.repoName),
          ("\x7btype\x7d".toList, d.type),
          ("\x7bbody\x7d".toList, orElseStr d.body []),
          ("\x7burl\x7d".toList, orElseStr d.url []),
          ("\x7bmilestone\x7d".toList, optOrElse d.milestone []),
          ("\x7bcommentsCount\x7d".toList,
            match d.commentsCount with
            | some n => natToStr n
            | none => "0".toList),
          ("\x7bisLocked\x7d".toList, if d.isLocked then "true".toList else "false".toList),
          ("\x7block\x52eason\x7d".toList, optOrElse d.lockReason []),
          ("\x7bcreated\x7d".toList, renderDate env fmt d.created),
          ("\x7bupdated\x7d".toList, optDate env fmt d.updated),
          ("\x7bclosed\x7d".toList, optDate env fmt d.closed)] := rfl
    rw [hlist]
    simp only [List.foldl_cons, List.foldl_nil]
    rw [jsReplaceAllLit_noOccur _ (show occursIn ("\x7btitle\x7d".toList)
        ("Closed on \x7bclosed\x7d".toList) = false by decide),
      jsReplaceAllLit_noOccur _ (show occursIn ("\x7btitle_yaml\x7d".toList)
        ("Closed on \x7bclosed\x7d".toList) = false by decide),
      jsReplaceAllLit_noOccur _ (show occursIn ("\x7bnumber\x7d".toList)
        ("Closed on \x7bclosed\x7d".toList) = false by decide),
      jsReplaceAllLit_noOccur _ (show occursIn ("\x7bstatus\x7d".toList)
        ("Closed on \x7bclosed\x7d".toList) = false by decide),
      jsReplaceAllLit_noOccur _ (show occursIn ("\x7bstate\x7d".toList)
        ("Closed on \x7bclosed\x7d".toList) = false by decide),
      jsReplaceAllLit_noOccur _ (show occursIn ("\x7bauthor\x7d".toList)
        ("Closed on \x7bclosed\x7d".toList) = false by decide),
      jsReplaceAllLit_noOccur _ (show occursIn ("\x7bassignee\x7d".toList)
        ("Closed on \x7bclosed\x7d".toList) = false by decide),
      jsReplaceAllLit_noOccur _ (show occursIn ("\x7brepository\x7d".toList)
        ("Closed on \x7bclosed\x7d".toList) = false by decide),
      jsReplaceAllLit_noOccur _ (show occursIn ("\x7bowner\x7d".toList)
        ("Closed on \x7bclosed\x7d".toList) = false by decide),
      jsReplaceAllLit_noOccur _ (show occursIn ("\x7brepoName\x7d".toList)
        ("Closed on \x7bclosed\x7d".toList) = false by decide),
      jsReplaceAllLit_noOccur _ (show occursIn ("\x7btype\x7d".toList)
        ("Closed on \x7bclosed\x7d".toList) = false by decide),
      jsReplaceAllLit_noOccur _ (show occursIn ("\x7bbody\x7d".toList)
        ("Closed on \x7bclosed\x7d".toList) = false by decide),
      jsReplaceAllLit_noOccur _ (show occursIn ("\x7burl\x7d".toList)
        ("Closed on \x7bclosed\x7d".toList) = false by decide),
      jsReplaceAllLit_noOccur _ (show occursIn ("\x7bmilestone\x7d".toList)
        ("Closed on \x7bclosed\x7d".toList) = false by decide),
      jsReplaceAllLit_noOccur _ (show occursIn ("\x7bcommentsCount\x7d".toList)
        ("Closed on \x7bclosed\x7d".toList) = false by decide),
      jsReplaceAllLit_noOccur _ (show occursIn ("\x7bisLocked\x7d".toList)
        ("Closed on \x7bclosed\x7d".toList) = false by decide),
      jsReplaceAllLit_noOccur _ (show occursIn ("\x7block\x52eason\x7d".toList)
        ("Closed on \x7bclosed\x7d".toList) = false by decide),
      jsReplaceAllLit_noOccur _ (show occursIn ("\x7bcreated\x7d".toList)
        ("Closed on \x7bclosed\x7d".toList) = false by decide),
      jsReplaceAllLit_noOccur _ (show occursIn ("\x7bupdated\x7d".toList)
        ("Closed on \x7bclosed\x7d".toList) = false by decide)]
    have hstep : jsReplaceAllLit ("\x7bclosed\x7d".toList) (optDate env fmt d.closed)
        ("Closed on \x7bclosed\x7d".toList) =
        "Closed on ".toList ++
          (expandDollar ("\x7bclosed\x7d".toList) ("Closed on ".toList) []
            (optDate env fmt d.closed) ++ []) := rfl
    rw [hstep, List.append_nil, hclosed]
    rw [show optDate env fmt (some tc) = renderDate env fmt tc from rfl]
    rw [expandDollar_no_dollar _ _ _ _ hdollar]
    refine foldRepl_noBrace _ _ ?_ ?_
    · intro e he
      exact replacementList_keys env fmt d e (List.mem_of_mem_drop he)
    · intro hmem
      rcases List.mem_append.mp hmem with h | h
      · revert h
        decide
      · exact hlb h

/-- Counterexample to claim C4 as stated: with no close date the template
`{closed:Closed on {closed}}` renders to `"}"`, not to the empty string. -/
theorem claim_C4_counterexample :
    c4DataNone.closed = none ∧
    processTemplate witnessEnv c4Template c4DataNone [] = [rbrace] ∧
    ([rbrace] : Str) ≠ [] := by
  refine ⟨rfl, ?_, by decide⟩
  decide

theorem claim_C4_witness :
    c4DataNone.closed = none ∧
    processTemplate witnessEnv c4Template c4DataNone [] = [rbrace] ∧
    c4DataClosed.closed = some 77 ∧
    processTemplate witnessEnv c4Template c4DataClosed [] =
      "Closed on ".toList ++ renderDate witnessEnv [] 77 ∧
    processConditionalBlocks
        (lbrace :: ("milestone".toList ++ ':' :: ("M due".toList ++ [rbrace])))
        c4DataNone =
      (if condTruthy (getVariableValue ("milestone".toList) c4DataNone)
        then "M due".toList else []) :=
  ⟨rfl, claim_C4.1 witnessEnv [] c4DataNone rfl, rfl,
    claim_C4.2.1 witnessEnv [] c4DataClosed 77 rfl (by decide) (by decide),
    claim_C4.2.2 c4DataNone ("milestone".toList) ("M due".toList)
      (by decide) (by decide) (by decide)⟩

/-! ## Claim C3: filename/number round trip -/

/-- Claim C3 (code bug): rendering the filename template
`"Issue - \x7bnumber\x7d"` for number 42 does produce `"Issue - 42"`, but
the reverse operation fails: `escapeRegExp` escapes the braces to
`\x7b`/`\x7d` preceded by backslashes, the `number → (\d+)` rewrite
requires an unescaped closing brace and never fires, so only the final
generic rule rewrites the variable and the built pattern is
`"Issue - .*?"` — no capturing digit group exists, `match[1]` is undefined
and `extractNumberFromFilename "Issue - 42.md" "Issue - \x7bnumber\x7d"`
returns null (`some none`), not `"42"` as claimed. -/
theorem claim_C3 :
    (∀ (env : JsDateEnv) (fmt : Str) (d : TemplateData), d.number = 42 →
      processFilenameTemplate env ("Issue - \x7bnumber\x7d".toList) d fmt =
        "Issue - 42".toList) ∧
    buildNumberPattern ("Issue - \x7bnumber\x7d".toList) = "Issue - .*?".toList ∧
    extractNumberFromFilename ("Issue - 42.md".toList)
      ("Issue - \x7bnumber\x7d".toList) = some none := by
  refine ⟨?_, by decide, by decide⟩
  intro env fmt d hnum
  unfold processFilenameTemplate processTemplate
  have hcond : processConditionalBlocks ("Issue - \x7bnumber\x7d".toList) d =
      "Issue - \x7bnumber\x7d".toList := rfl
  rw [hcond]
  rw [(List.take_append_drop 3 (replacementList env fmt d)).symm]
  rw [List.foldl_append]
  have hlist : (replacementList env fmt d).take 3 =
      [("\x7btitle\x7d".toList, orElseStr d.title ("Untitled".toList)),
        ("\x7btitle_yaml\x7d".toList, orElseStr d.title_yaml ("Untitled".toList)),
        ("\x7bnumber\x7d".toList, natToStr d.number)] := rfl
  rw [hlist]
  simp only [List.foldl_cons, List.foldl_nil]
  rw [jsReplaceAllLit_noOccur _ (show occursIn ("\x7btitle\x7d".toList)
      ("Issue - \x7bnumber\x7d".toList) = false by decide)]
  rw [jsReplaceAllLit_noOccur _ (show occursIn ("\x7btitle_yaml\x7d".toList)
      ("Issue - \x7bnumber\x7d".toList) = false by decide)]
  rw [hnum]
  rw [show jsReplaceAllLit ("\x7bnumber\x7d".toList) (natToStr 42)
      ("Issue - \x7bnumber\x7d".toList) = "Issue - 42".toList from by decide]
  rw [foldRepl_noBrace _ _ (fun e he => replacementList_keys env fmt d e
      (List.mem_of_mem_drop he)) (by decide)]
  decide

theorem claim_C3_witness :
    processFilenameTemplate witnessEnv ("Issue - \x7bnumber\x7d".toList) c3Data [] =
      "Issue - 42".toList ∧
    extractNumberFromFilename ("Issue - 42.md".toList)
      ("Issue - \x7bnumber\x7d".toList) = some none :=
  ⟨claim_C3.1 witnessEnv [] c3Data rfl, claim_C3.2.2⟩

/-- Claim C5: a document matching a history item closed longer ago than
the retention window is deleted iff the effective allow-delete flag is on,
and a document closed within the window is kept regardless of the flag. -/
theorem claim_C5 (env : JsDateEnv) (now : Int) (days : Nat)
    (num fileName tmpl repoName : Str) (propAD : Option PropVal) (repoAD : Bool)
    (hist : List IssueSnapshot) (iss : IssueSnapshot) (ca : Str) (t : Int)
    (hfind : hist.find? (fun i => decide (natToStr i.number = num)) = some iss)
    (hstate : iss.state = "closed".toList) (hca : iss.closed_at = some ca)
    (hparse : env.parse ca = some t) :
    (t < now - (days : Int) * dayMs →
      (effectiveAllowDelete propAD repoAD = true →
        cleanupFileAction env now days (some num) fileName tmpl propAD repoAD
            repoName hist =
          CleanupAction.delete
            ("Deleted issue ".toList ++ num ++ " from ".toList ++ repoName ++
              " (closed ".toList ++ intToStr ((now - t).fdiv dayMs) ++
              " days ago, threshold: ".toList ++ natToStr days ++
              " days)".toList)) ∧
      (effectiveAllowDelete propAD repoAD = false →
        cleanupFileAction env now days (some num) fileName tmpl propAD repoAD
            repoName hist = CleanupAction.keep)) ∧
    (now - (days : Int) * dayMs ≤ t →
      cleanupFileAction env now days (some num) fileName tmpl propAD repoAD
          repoName hist = CleanupAction.keep) := by
  unfold cleanupFileAction
  dsimp only
  rw [hfind]
  dsimp only
  rw [hstate, if_pos rfl, hca]
  dsimp only
  rw [hparse]
  dsimp only
  refine ⟨fun hlt => ?_, fun hge => ?_⟩
  · rw [if_pos hlt]
    dsimp only
    refine ⟨fun heff => ?_, fun heff => ?_⟩
    · rw [heff, if_pos rfl]
    · rw [heff]
      rfl
  · rw [if_neg (Int.not_lt.mpr hge)]

theorem claim_C5_witness :
    cleanupFileAction cleanupEnv (40 * dayMs) 30 (some ("42".toList)) [] []
        (some (PropVal.bool true)) false ("acme/widgets".toList) c5Hist =
      CleanupAction.delete
        ("Deleted issue ".toList ++ "42".toList ++ " from ".toList ++
          "acme/widgets".toList ++ " (closed ".toList ++
          intToStr ((40 * dayMs - 0).fdiv dayMs) ++
          " days ago, threshold: ".toList ++ natToStr 30 ++ " days)".toList) ∧
    cleanupFileAction cleanupEnv (40 * dayMs) 30 (some ("42".toList)) [] []
        (some (PropVal.str ("false".toList))) true ("acme/widgets".toList)
        c5Hist = CleanupAction.keep ∧
    cleanupFileAction cleanupEnv (10 * dayMs) 30 (some ("42".toList)) [] []
        (some (PropVal.bool true)) false ("acme/widgets".toList) c5Hist =
      CleanupAction.keep :=
  ⟨((claim_C5 cleanupEnv (40 * dayMs) 30 ("42".toList) [] []
        ("acme/widgets".toList) (some (PropVal.bool true)) false c5Hist
        ⟨42, "closed".toList, some ("2024-01-01T00:00:00Z".toList)⟩
        ("2024-01-01T00:00:00Z".toList) 0 (by decide) rfl rfl (by decide)).1
      (by decide)).1 (by decide),
    ((claim_C5 cleanupEnv (40 * dayMs) 30 ("42".toList) [] []
        ("acme/widgets".toList) (some (PropVal.str ("false".toList))) true c5Hist
        ⟨42, "closed".toList, some ("2024-01-01T00:00:00Z".toList)⟩
        ("2024-01-01T00:00:00Z".toList) 0 (by decide) rfl rfl (by decide)).1
      (by decide)).2 (by decide),
    (claim_C5 cleanupEnv (10 * dayMs) 30 ("42".toList) [] []
        ("acme/widgets".toList) (some (PropVal.bool true)) false c5Hist
        ⟨42, "closed".toList, some ("2024-01-01T00:00:00Z".toList)⟩
        ("2024-01-01T00:00:00Z".toList) 0 (by decide) rfl rfl (by decide)).2
      (by decide)⟩

/-- Claim C6 (amended): a document whose number is found in the recent
history with state still open is KEPT (the code only marks found items for
deletion when they are closed past the window); the "no longer tracked"
delete reason arises only for documents whose number is NOT found in the
history at all, and those are deleted exactly when the effective
allow-delete flag is on. -/
theorem claim_C6 (env : JsDateEnv) (now : Int) (days : Nat)
    (num fileName tmpl repoName : Str) (propAD : Option PropVal) (repoAD : Bool)
    (hist : List IssueSnapshot) :
    (∀ iss, hist.find? (fun i => decide (natToStr i.number = num)) = some iss →
      iss.state = "open".toList →
      cleanupFileAction env now days (some num) fileName tmpl propAD repoAD
          repoName hist = CleanupAction.keep) ∧
    (hist.find? (fun i => decide (natToStr i.number = num)) = none →
      effectiveAllowDelete propAD repoAD = true →
      cleanupFileAction env now days (some num) fileName tmpl propAD repoAD
          repoName hist =
        CleanupAction.delete
          ("Deleted issue ".toList ++ num ++ " from ".toList ++ repoName ++
            " as it\x27s no longer tracked (closed > ".toList ++
            natToStr days ++ " days or deleted)".toList)) := by
  constructor
  · intro iss hfind hopen
    unfold cleanupFileAction
    dsimp only
    rw [hfind]
    dsimp only
    rw [hopen, if_neg (by decide)]
  · intro hfind heff
    unfold cleanupFileAction
    dsimp only
    rw [hfind]
    dsimp only
    rw [heff, if_pos rfl]

/-- Counterexample to claim C6 as stated: issue 7 is present in the
history and still open, the effective allow-delete flag is on, yet the
cleanup pass keeps the file instead of deleting it with a "no longer
tracked" reason. -/
theorem claim_C6_counterexample :
    c6Hist.find? (fun i => decide (natToStr i.number = "7".toList)) =
      some ⟨7, "open".toList, none⟩ ∧
    effectiveAllowDelete (some (PropVal.bool true)) false = true ∧
    cleanupFileAction cleanupEnv 0 30 (some ("7".toList)) [] []
        (some (PropVal.bool true)) false ("acme/widgets".toList) c6Hist =
      CleanupAction.keep := ⟨by decide, by decide, by decide⟩

theorem claim_C6_witness :
    cleanupFileAction cleanupEnv 0 30 (some ("7".toList)) [] []
        (some (PropVal.bool true)) false ("acme/widgets".toList) c6Hist =
      CleanupAction.keep ∧
    cleanupFileAction cleanupEnv 0 30 (some ("9".toList)) [] [] none true
        ("acme/widgets".toList) c6Hist =
      CleanupAction.delete
        ("Deleted issue ".toList ++ "9".toList ++ " from ".toList ++
          "acme/widgets".toList ++
          " as it\x27s no longer tracked (closed > ".toList ++ natToStr 30 ++
          " days or deleted)".toList) :=
  ⟨(claim_C6 cleanupEnv 0 30 ("7".toList) [] [] ("acme/widgets".toList)
      (some (PropVal.bool true)) false c6Hist).1 ⟨7, "open".toList, none⟩
      (by decide) rfl,
    (claim_C6 cleanupEnv 0 30 ("9".toList) [] [] ("acme/widgets".toList)
      none true c6Hist).2 (by decide) rfl⟩

/-- Claim C9: when the frontmatter has no usable `number` property and
filename extraction returns null, the file loop takes the skip branch:
the file is neither deleted nor modified, only a debug notice is
logged. -/
theorem claim_C9 (env : JsDateEnv) (now : Int) (days : Nat)
    (fileName tmpl repoName : Str) (propAD : Option PropVal) (repoAD : Bool)
    (hist : List IssueSnapshot)
    (hext : extractNumberFromFilename fileName tmpl = some none) :
    cleanupFileAction env now days none fileName tmpl propAD repoAD repoName
      hist = CleanupAction.skipUnknown := by
  unfold cleanupFileAction
  dsimp only
  rw [hext]
  rfl

theorem claim_C9_witness :
    extractNumberFromFilename ("foo.md".toList)
      ("Issue - \x7bnumber\x7d".toList) = some none ∧
    cleanupFileAction cleanupEnv 0 30 none ("foo.md".toList)
        ("Issue - \x7bnumber\x7d".toList) none true ("acme/widgets".toList)
        [] = CleanupAction.skipUnknown :=
  ⟨by decide,
    claim_C9 cleanupEnv 0 30 ("foo.md".toList)
      ("Issue - \x7bnumber\x7d".toList) ("acme/widgets".toList) none true []
      (by decide)⟩

end ObsidianGithubIssues
